import Mathlib

/-!
Verification of the PyMermaidView flowchart IR, serializer, parser and
validator (`src/flowchart_builder.py`, `src/mermaid_utils.py`).

Python strings are modelled as `List Char` (`Str`).  The relevant
Python string primitives (`str.strip`, `str.split`, `str.count`, the
`in` operator, and the few fixed regular expressions the code uses)
are given as executable Lean functions.  The inputs exercised by the
claims are ASCII, so character-class predicates (`\w`, `isalpha`,
`lower`) are modelled on their ASCII behaviour.
-/

set_option maxHeartbeats 1000000

namespace PyMermaid

/-- Python `str` modelled as a list of characters. -/
abbrev Str := List Char

/-- Coerce a Lean string literal to the `Str` model. -/
def S (s : String) : Str := s.toList

/-- Characters stripped by Python `str.strip()` (the whitespace that can
occur in this code base). -/
def isSpaceChar (c : Char) : Bool :=
  c = ' ' || c = '\t' || c = '\n' || c = '\r'

/-- Model of Python `str.lstrip()`. -/
def pyLStrip (s : Str) : Str := s.dropWhile isSpaceChar

/-- Model of Python `str.rstrip()`. -/
def pyRStrip (s : Str) : Str := (s.reverse.dropWhile isSpaceChar).reverse

/-- Model of Python `str.strip()`. -/
def pyStrip (s : Str) : Str := pyRStrip (pyLStrip s)

/-- Model of Python `s.split(c)` for a single-character separator:
splits at every occurrence, keeping empty pieces. -/
def splitOnChar (c : Char) : Str → List Str
  | [] => [[]]
  | x :: rest =>
    if x = c then [] :: splitOnChar c rest
    else
      match splitOnChar c rest with
      | [] => [[x]]
      | h :: t => (x :: h) :: t

/-- Model of Python `sep.join(lines)` / `'\n'.join(...)`:
`List.intercalate` with a one-character separator. -/
def joinWith (c : Char) (ls : List Str) : Str := List.intercalate [c] ls

/-- Model of Python `s.split(c, maxsplit)` (used as `line.split(' ', 2)`).
Structural recursion on the remaining split budget. -/
def pySplitCharMax (c : Char) : Nat → Str → List Str
  | 0, s => [s]
  | n + 1, s =>
    if (s.takeWhile (· ≠ c)).length = s.length then [s]
    else (s.takeWhile (· ≠ c)) ::
      pySplitCharMax c n (s.drop ((s.takeWhile (· ≠ c)).length + 1))

/-- Model of the Python substring test `t in s` (for nonempty `t`). -/
def containsSeq (t : Str) : Str → Bool
  | [] => t.isPrefixOf []
  | c :: rest => t.isPrefixOf (c :: rest) || containsSeq t rest

/-- Scanner for `countSeq`.  The fuel argument only bounds the
recursion depth (the scan consumes at least one character per step);
the fuel-0 branch is unreachable from `countSeq`. -/
def countSeqAux (t : Str) : Nat → Str → Nat
  | 0, _ => 0
  | _ + 1, [] => 0
  | fuel + 1, c :: rest =>
    if t ≠ [] ∧ t.isPrefixOf (c :: rest) then
      1 + countSeqAux t fuel ((c :: rest).drop t.length)
    else countSeqAux t fuel rest

/-- Model of Python `s.count(t)` for nonempty `t`: non-overlapping
occurrences, scanning left to right. -/
def countSeq (t s : Str) : Nat := countSeqAux t (s.length + 1) s

/-- Scanner for `splitOnSeq`; fuel as in `countSeqAux`. -/
def splitOnSeqAux (t : Str) : Nat → Str → Str → List Str
  | 0, _, acc => [acc.reverse]
  | _ + 1, [], acc => [acc.reverse]
  | fuel + 1, c :: rest, acc =>
    if t ≠ [] ∧ t.isPrefixOf (c :: rest) then
      acc.reverse :: splitOnSeqAux t fuel ((c :: rest).drop t.length) []
    else splitOnSeqAux t fuel rest (c :: acc)

/-- Model of Python `s.split(t)` for a nonempty multi-character
separator `t`: non-overlapping, left to right. -/
def splitOnSeq (t s : Str) : List Str := splitOnSeqAux t (s.length + 1) s []

/-- Scanner for `replaceSeq`; fuel as in `countSeqAux`. -/
def replaceSeqAux (t u : Str) : Nat → Str → Str
  | 0, s => s
  | _ + 1, [] => []
  | fuel + 1, c :: rest =>
    if t ≠ [] ∧ t.isPrefixOf (c :: rest) then
      u ++ replaceSeqAux t u fuel ((c :: rest).drop t.length)
    else c :: replaceSeqAux t u fuel rest

/-- Model of Python `s.replace(t, u)` for nonempty `t`. -/
def replaceSeq (t u s : Str) : Str := replaceSeqAux t u (s.length + 1) s

/-- ASCII word characters: the class `[a-zA-Z0-9_]` used by the
sanitizer's regex and (for the ASCII inputs at hand) by `\w`. -/
def isWordChar (c : Char) : Bool :=
  ('a' ≤ c && c ≤ 'z') || ('A' ≤ c && c ≤ 'Z') || ('0' ≤ c && c ≤ '9') || c = '_'

/-- ASCII letters: Python `str.isalpha` restricted to the ASCII
characters that can actually reach the check in `_sanitize_id`. -/
def isAsciiLetter (c : Char) : Bool :=
  ('a' ≤ c && c ≤ 'z') || ('A' ≤ c && c ≤ 'Z')

/-- Model of Python `str.lower()` on ASCII letters. -/
def pyLower (s : Str) : Str := s.map Char.toLower

/-- Model of Python `int(s)`: optional sign followed by a nonempty
digit string (surrounding whitespace tolerated); anything else raises,
modelled as `none`. -/
def pyInt (s : Str) : Option Int :=
  let t := pyStrip s
  let (sign, digits) :=
    match t with
    | '-' :: rest => ((-1 : Int), rest)
    | '+' :: rest => ((1 : Int), rest)
    | _ => ((1 : Int), t)
  if digits ≠ [] ∧ digits.all (fun c => '0' ≤ c && c ≤ '9') then
    some (sign * (digits.foldl (fun acc c => acc * 10 + (c.toNat - '0'.toNat)) 0 : Nat))
  else none

/-- Python truthiness of an optional string (`None` and `""` are falsy). -/
def strTruthy : Option Str → Bool
  | none => false
  | some s => s ≠ []

/-- Python truthiness of an optional integer (`None` and `0` are falsy). -/
def intTruthy : Option Int → Bool
  | none => false
  | some n => n ≠ 0

end PyMermaid

namespace PyMermaid

/-- `NodeShape` enum from `flowchart_builder.py`. -/
inductive NodeShape where
  | RECTANGLE | ROUND_RECT | STADIUM | SUBROUTINE | CYLINDER | CIRCLE
  | ASYMMETRIC | RHOMBUS | HEXAGON | PARALLELOGRAM | PARALLELOGRAM_ALT
  | TRAPEZOID | TRAPEZOID_ALT
  deriving DecidableEq, Repr

/-- `ArrowType` enum from `flowchart_builder.py`. -/
inductive ArrowType where
  | ARROW | OPEN | DOTTED_ARROW | DOTTED_OPEN | THICK_ARROW | THICK_OPEN
  | INVISIBLE
  deriving DecidableEq, Repr

/-- The `.value` string of each `ArrowType` member. -/
def ArrowType.val : ArrowType → Str
  | .ARROW => S "-->"
  | .OPEN => S "---"
  | .DOTTED_ARROW => S "-.->"
  | .DOTTED_OPEN => S "-.-"
  | .THICK_ARROW => S "==>"
  | .THICK_OPEN => S "==="
  | .INVISIBLE => S "~~~"

/-- Members of `ArrowType` in declaration order (Python enum iteration
order, used by the parser's arrow loop). -/
def arrowList : List ArrowType :=
  [.ARROW, .OPEN, .DOTTED_ARROW, .DOTTED_OPEN, .THICK_ARROW, .THICK_OPEN,
   .INVISIBLE]

/-- `Direction` enum: four distinct members (`TOP_DOWN` is a Python
enum alias of `TOP_BOTTOM`, both `"TD"`). -/
inductive Direction where
  | TOP_BOTTOM | BOTTOM_TOP | RIGHT_LEFT | LEFT_RIGHT
  deriving DecidableEq, Repr

/-- The `.value` string of each `Direction` member. -/
def Direction.val : Direction → Str
  | .TOP_BOTTOM => S "TD"
  | .BOTTOM_TOP => S "BT"
  | .RIGHT_LEFT => S "RL"
  | .LEFT_RIGHT => S "LR"

/-- Model of the `Direction(value)` enum constructor: `some` on a valid
value string, `none` where Python raises `ValueError` (which the parser
catches). -/
def Direction.ofVal (s : Str) : Option Direction :=
  if s = S "TD" then some .TOP_BOTTOM
  else if s = S "BT" then some .BOTTOM_TOP
  else if s = S "RL" then some .RIGHT_LEFT
  else if s = S "LR" then some .LEFT_RIGHT
  else none

/-- `NodeStyle` dataclass. -/
structure NodeStyle where
  fill_color : Option Str := none
  stroke_color : Option Str := none
  stroke_width : Option Int := none
  color : Option Str := none
  font_size : Option Str := none
  font_weight : Option Str := none
  deriving DecidableEq, Repr

/-- Decimal rendering of an integer, for the `stroke-width:{n}px`
f-string. -/
def intToStr (n : Int) : Str :=
  if n < 0 then '-' :: (Nat.toDigits 10 n.natAbs)
  else Nat.toDigits 10 n.toNat

/-- `NodeStyle.to_css`: emit the truthy fields, in fixed order,
comma-joined. -/
def NodeStyle.to_css (st : NodeStyle) : Str :=
  let styles : List Str :=
    (if strTruthy st.fill_color then [S "fill:" ++ st.fill_color.getD []] else [])
    ++ (if strTruthy st.stroke_color then [S "stroke:" ++ st.stroke_color.getD []] else [])
    ++ (if intTruthy st.stroke_width then
          [S "stroke-width:" ++ intToStr (st.stroke_width.getD 0) ++ S "px"] else [])
    ++ (if strTruthy st.color then [S "color:" ++ st.color.getD []] else [])
    ++ (if strTruthy st.font_size then [S "font-size:" ++ st.font_size.getD []] else [])
    ++ (if strTruthy st.font_weight then [S "font-weight:" ++ st.font_weight.getD []] else [])
  joinWith ',' styles

/-- `FlowchartNode`: the fields that exist on the Python object. -/
structure FlowchartNode where
  node_id : Str
  label : Str
  shape : NodeShape
  style : Option NodeStyle := none
  css_class : Option Str := none
  click_action : Option Str := none
  href_link : Option Str := none
  deriving DecidableEq, Repr

/-- `FlowchartNode._sanitize_id`: replace every character outside
`[a-zA-Z0-9_]` by `_`; prefix `node_` when the first character is
neither a letter nor `_`; an empty result becomes `node`. -/
def sanitize_id (node_id : Str) : Str :=
  let sanitized := node_id.map (fun c => if isWordChar c then c else '_')
  let sanitized :=
    if sanitized ≠ [] ∧ ¬ isAsciiLetter (sanitized.headD ' ')
        ∧ sanitized.headD ' ' ≠ '_' then
      S "node_" ++ sanitized
    else sanitized
  if sanitized = [] then S "node" else sanitized

/-- `FlowchartNode.__init__`. -/
def FlowchartNode.make (node_id label : Str) (shape : NodeShape) : FlowchartNode :=
  { node_id := sanitize_id node_id, label := label, shape := shape }

/-- `FlowchartNode.to_mermaid`: shape-specific text fragment. -/
def FlowchartNode.to_mermaid (n : FlowchartNode) : Str :=
  match n.shape with
  | .RECTANGLE => n.node_id ++ '[' :: (n.label ++ [']'])
  | .ROUND_RECT => n.node_id ++ '(' :: (n.label ++ [')'])
  | .STADIUM => n.node_id ++ '(' :: '[' :: (n.label ++ [']', ')'])
  | .SUBROUTINE => n.node_id ++ '[' :: '[' :: (n.label ++ [']', ']'])
  | .CYLINDER => n.node_id ++ '[' :: '(' :: (n.label ++ [')', ']'])
  | .CIRCLE => n.node_id ++ '(' :: '(' :: (n.label ++ [')', ')'])
  | .ASYMMETRIC => n.node_id ++ '>' :: (n.label ++ [']'])
  | .RHOMBUS => n.node_id ++ '{' :: (n.label ++ ['}'])
  | .HEXAGON => n.node_id ++ '{' :: '{' :: (n.label ++ ['}', '}'])
  | .PARALLELOGRAM => n.node_id ++ '[' :: '/' :: (n.label ++ ['/', ']'])
  | .PARALLELOGRAM_ALT => n.node_id ++ '[' :: '\\' :: (n.label ++ ['\\', ']'])
  | .TRAPEZOID => n.node_id ++ '[' :: '/' :: (n.label ++ ['\\', ']'])
  | .TRAPEZOID_ALT => n.node_id ++ '[' :: '\\' :: (n.label ++ ['/', ']'])

/-- `FlowchartConnection`. -/
structure FlowchartConnection where
  from_node : Str
  to_node : Str
  arrow_type : ArrowType
  label : Option Str := none
  deriving DecidableEq, Repr

/-- `FlowchartConnection.to_mermaid`: the label segment is emitted only
when the label is truthy (so `label=""` renders like `label=None`). -/
def FlowchartConnection.to_mermaid (c : FlowchartConnection) : Str :=
  if strTruthy c.label then
    c.from_node ++ S " " ++ c.arrow_type.val ++ S " |" ++ c.label.getD []
      ++ S "| " ++ c.to_node
  else
    c.from_node ++ S " " ++ c.arrow_type.val ++ S " " ++ c.to_node

/-- `SubgraphContainer` (id, title, nodes, connections, nested
subgraphs). -/
inductive SubgraphContainer where
  | mk (subgraph_id : Str) (title : Str) (nodes : List FlowchartNode)
       (connections : List FlowchartConnection)
       (nested_subgraphs : List SubgraphContainer)

mutual

/-- `SubgraphContainer.to_mermaid` with indentation level. -/
def SubgraphContainer.to_mermaid : SubgraphContainer → Nat → Str
  | .mk sid title nodes conns nested, lvl =>
    let indent : Str := (List.replicate lvl (S "    ")).flatten
    let lines : List Str :=
      [indent ++ S "subgraph " ++ sid ++ S " [" ++ title ++ S "]"]
      ++ nodes.map (fun n => indent ++ S "    " ++ n.to_mermaid)
      ++ (SubgraphContainer.nestedMermaid nested (lvl + 1)).flatten
      ++ conns.map (fun c => indent ++ S "    " ++ c.to_mermaid)
      ++ [indent ++ S "end"]
    joinWith '\n' lines

/-- The `lines.extend(subgraph.to_mermaid(level+1).split('\n'))` loop
over the nested subgraphs. -/
def SubgraphContainer.nestedMermaid : List SubgraphContainer → Nat → List (List Str)
  | [], _ => []
  | sg :: rest, lvl =>
    splitOnChar '\n' (sg.to_mermaid lvl) :: SubgraphContainer.nestedMermaid rest lvl

end

/-- `FlowchartBuilder` state.  The Python `dict` fields are modelled as
association lists in insertion order. -/
structure FlowchartBuilder where
  title : Option Str := none
  direction : Direction := .TOP_BOTTOM
  nodes : List (Str × FlowchartNode) := []
  connections : List FlowchartConnection := []
  subgraphs : List SubgraphContainer := []
  styles : List (Str × NodeStyle) := []
  css_classes : List (Str × Str) := []
  click_actions : List (Str × Str) := []
  href_links : List (Str × Str) := []

/-- Python `dict` assignment on an insertion-ordered association list:
an existing key keeps its position, a new key is appended. -/
def dictInsert (k : Str) (v : α) : List (Str × α) → List (Str × α)
  | [] => [(k, v)]
  | (k', v') :: rest =>
    if k' = k then (k, v) :: rest else (k', v') :: dictInsert k v rest

/-- `FlowchartBuilder.set_direction`. -/
def FlowchartBuilder.set_direction (b : FlowchartBuilder) (d : Direction) :
    FlowchartBuilder := { b with direction := d }

/-- `FlowchartBuilder.add_node`: constructs the node (sanitizing the
id) and stores it keyed by the sanitized id. -/
def FlowchartBuilder.add_node (b : FlowchartBuilder) (node_id label : Str)
    (shape : NodeShape) : FlowchartBuilder :=
  let n := FlowchartNode.make node_id label shape
  { b with nodes := dictInsert n.node_id n b.nodes }

/-- `FlowchartBuilder.connect`. -/
def FlowchartBuilder.connect (b : FlowchartBuilder) (from_node to_node : Str)
    (arrow_type : ArrowType) (label : Option Str) : FlowchartBuilder :=
  { b with connections :=
      b.connections ++ [⟨from_node, to_node, arrow_type, label⟩] }

/-- `FlowchartBuilder.style_node`: sets the node's own style when the
id is present, and always records the style in the builder's style
map. -/
def FlowchartBuilder.style_node (b : FlowchartBuilder) (node_id : Str)
    (style : NodeStyle) : FlowchartBuilder :=
  { b with
    nodes := b.nodes.map
      (fun p => if p.1 = node_id then (p.1, { p.2 with style := some style }) else p),
    styles := dictInsert node_id style b.styles }

/-- `FlowchartBuilder.add_css_class`. -/
def FlowchartBuilder.add_css_class (b : FlowchartBuilder)
    (class_name css_definition : Str) : FlowchartBuilder :=
  { b with css_classes := dictInsert class_name css_definition b.css_classes }

/-- `FlowchartBuilder.add_click_action`. -/
def FlowchartBuilder.add_click_action (b : FlowchartBuilder)
    (node_id action : Str) : FlowchartBuilder :=
  { b with
    nodes := b.nodes.map
      (fun p => if p.1 = node_id then (p.1, { p.2 with click_action := some action }) else p),
    click_actions := dictInsert node_id action b.click_actions }

/-- The link text computed by `set_href_link`/`add_href_link`:
`"{url}"` plus an optional ` "{tooltip}"` (tooltip truthiness). -/
def hrefLinkText (url : Str) (tooltip : Option Str) : Str :=
  '"' :: (url ++ ['"']) ++
    (if strTruthy tooltip then ' ' :: '"' :: (tooltip.getD [] ++ ['"']) else [])

/-- `FlowchartBuilder.add_href_link`. -/
def FlowchartBuilder.add_href_link (b : FlowchartBuilder)
    (node_id url : Str) (tooltip : Option Str) : FlowchartBuilder :=
  { b with
    nodes := b.nodes.map
      (fun p => if p.1 = node_id then
          (p.1, { p.2 with href_link := some (hrefLinkText url tooltip) }) else p),
    href_links := dictInsert node_id (hrefLinkText url tooltip) b.href_links }

/-- `FlowchartBuilder.build`: the serializer.  Sections in source
order: optional title front matter, declaration with direction, nodes,
subgraphs, connections, classDefs, truthy styles, click actions, href
links; joined with newlines. -/
def FlowchartBuilder.build (b : FlowchartBuilder) : Str :=
  let lines : List Str :=
    (if strTruthy b.title then
        [S "---", S "title: " ++ b.title.getD [], S "---"] else [])
    ++ [S "flowchart " ++ b.direction.val]
    ++ b.nodes.map (fun p => S "    " ++ p.2.to_mermaid)
    ++ b.subgraphs.map (fun sg => sg.to_mermaid 1)
    ++ b.connections.map (fun c => S "    " ++ c.to_mermaid)
    ++ b.css_classes.map (fun p => S "    classDef " ++ p.1 ++ S " " ++ p.2)
    ++ (b.styles.filter (fun p => p.2.to_css ≠ [])).map
        (fun p => S "    style " ++ p.1 ++ S " " ++ p.2.to_css)
    ++ b.click_actions.map (fun p => S "    click " ++ p.1 ++ S " " ++ p.2)
    ++ b.href_links.map (fun p => S "    click " ++ p.1 ++ S " href " ++ p.2)
  joinWith '\n' lines

/-- Model of `re.match(r'(\w+)OPEN([^CLOSE]+)CLOSE', line)` for one of
the three shape patterns: a maximal nonempty run of word characters,
the opening delimiter, a maximal nonempty run free of the closing
delimiter, the closing delimiter; trailing text is ignored
(`re.match` anchors only at the start). -/
def reMatchShape (openC closeC : Char) (line : Str) : Option (Str × Str) :=
  let idPart := line.takeWhile isWordChar
  if idPart = [] then none
  else
    match line.drop idPart.length with
    | [] => none
    | c :: rest2 =>
      if c = openC then
        let lab := rest2.takeWhile (· ≠ closeC)
        if lab ≠ [] ∧ (rest2.drop lab.length).head? = some closeC then
          some (idPart, lab)
        else none
      else none

/-- `FlowchartParser._parse_node_definition`: try rectangle, round,
diamond patterns in order; first match wins; otherwise the line is
ignored. -/
def FlowchartParser.parseNodeDefinition (line : Str) (b : FlowchartBuilder) :
    FlowchartBuilder :=
  match reMatchShape '[' ']' line with
  | some (node_id, label) => b.add_node node_id label .RECTANGLE
  | none =>
    match reMatchShape '(' ')' line with
    | some (node_id, label) => b.add_node node_id label .ROUND_RECT
    | none =>
      match reMatchShape '{' '}' line with
      | some (node_id, label) => b.add_node node_id label .RHOMBUS
      | none => b

/-- Try to match `([^d]+)d` at the current position (the text after an
opening delimiter `d`): a maximal nonempty run free of `d` followed by
`d`. -/
def tryDelimMatch (d : Char) (s : Str) : Option Str :=
  let run := s.takeWhile (· ≠ d)
  if run ≠ [] ∧ (s.drop run.length).head? = some d then some run else none

/-- Model of `re.search(r'\|([^|]+)\|', s)`: first position where the
pipe-delimited pattern matches, returning the group. -/
def reSearchPipe : Str → Option Str
  | [] => none
  | c :: rest =>
    match (if c = '|' then tryDelimMatch '|' rest else none) with
    | some lab => some lab
    | none => reSearchPipe rest

/-- Scanner for `reSubPipe`; the fuel only bounds recursion depth and
its zero branch is unreachable from `reSubPipe`. -/
def reSubPipeAux : Nat → Str → Str
  | 0, s => s
  | _ + 1, [] => []
  | fuel + 1, c :: rest =>
    if c = '|' then
      match tryDelimMatch '|' rest with
      | some run => reSubPipeAux fuel (rest.drop (run.length + 1))
      | none => c :: reSubPipeAux fuel rest
    else c :: reSubPipeAux fuel rest

/-- Model of `re.sub(r'\|[^|]+\|', '', s)`: remove every
non-overlapping match, scanning left to right. -/
def reSubPipe (s : Str) : Str := reSubPipeAux (s.length + 1) s

/-- `FlowchartParser._parse_connection`'s arrow loop: take the first
`ArrowType` (in declaration order) whose token occurs in the line and
splits it into exactly two parts; recover an optional `|label|`. -/
def FlowchartParser.parseConnectionGo (line : Str) (b : FlowchartBuilder) :
    List ArrowType → FlowchartBuilder
  | [] => b
  | a :: rest =>
    if containsSeq a.val line then
      match splitOnSeq a.val line with
      | [p0, p1] =>
        let from_node := pyStrip p0
        let to_part := pyStrip p1
        if to_part.contains '|' then
          match reSearchPipe line with
          | some lab =>
            b.connect from_node (pyStrip (reSubPipe to_part)) a (some (pyStrip lab))
          | none => b.connect from_node to_part a none
        else b.connect from_node to_part a none
      | _ => FlowchartParser.parseConnectionGo line b rest
    else FlowchartParser.parseConnectionGo line b rest

/-- `FlowchartParser._parse_connection`. -/
def FlowchartParser.parseConnection (line : Str) (b : FlowchartBuilder) :
    FlowchartBuilder :=
  FlowchartParser.parseConnectionGo line b arrowList

/-- The property/value update loop of
`FlowchartParser._parse_style_definition`.  A `stroke-width` value
whose `px`-stripped text is not an integer literal reaches Python's
`int()` and raises `ValueError`, modelled as `Except.error`. -/
def FlowchartParser.parseStyleParts : List Str → NodeStyle → Except Unit NodeStyle
  | [], st => .ok st
  | part :: rest, st =>
    if part.contains ':' then
      let prop := pyStrip (part.takeWhile (· ≠ ':'))
      let value := pyStrip (part.drop ((part.takeWhile (· ≠ ':')).length + 1))
      if prop = S "fill" then
        FlowchartParser.parseStyleParts rest { st with fill_color := some value }
      else if prop = S "stroke" then
        FlowchartParser.parseStyleParts rest { st with stroke_color := some value }
      else if prop = S "stroke-width" then
        match pyInt (replaceSeq (S "px") [] value) with
        | some n => FlowchartParser.parseStyleParts rest { st with stroke_width := some n }
        | none => .error ()
      else if prop = S "color" then
        FlowchartParser.parseStyleParts rest { st with color := some value }
      else FlowchartParser.parseStyleParts rest st
    else FlowchartParser.parseStyleParts rest st

/-- `FlowchartParser._parse_style_definition`. -/
def FlowchartParser.parseStyleDefinition (line : Str) (b : FlowchartBuilder) :
    Except Unit FlowchartBuilder :=
  match pySplitCharMax ' ' 2 line with
  | [_, node_id, style_str] => do
    let st ← FlowchartParser.parseStyleParts (splitOnChar ',' style_str) {}
    .ok (b.style_node node_id st)
  | _ => .ok b

/-- `FlowchartParser._parse_class_definition`. -/
def FlowchartParser.parseClassDefinition (line : Str) (b : FlowchartBuilder) :
    FlowchartBuilder :=
  match pySplitCharMax ' ' 2 line with
  | [_, class_name, css_def] => b.add_css_class class_name css_def
  | _ => b

/-- Model of `re.search(r'"([^"]+)"', s)`. -/
def reSearchQuoted : Str → Option Str
  | [] => none
  | c :: rest =>
    match (if c = '"' then tryDelimMatch '"' rest else none) with
    | some q => some q
    | none => reSearchQuoted rest

/-- Try to match `[^"]+" "([^"]+)"` after an opening quote. -/
def tryTooltipMatch (s : Str) : Option Str :=
  match tryDelimMatch '"' s with
  | none => none
  | some r1 =>
    match s.drop (r1.length + 1) with
    | ' ' :: '"' :: rest2 => tryDelimMatch '"' rest2
    | _ => none

/-- Model of `re.search(r'"[^"]+" "([^"]+)"', s)`, returning the
group (the tooltip). -/
def reSearchTooltip : Str → Option Str
  | [] => none
  | c :: rest =>
    match (if c = '"' then tryTooltipMatch rest else none) with
    | some q => some q
    | none => reSearchTooltip rest

/-- `FlowchartParser._parse_click_action`. -/
def FlowchartParser.parseClickAction (line : Str) (b : FlowchartBuilder) :
    FlowchartBuilder :=
  match pySplitCharMax ' ' 2 line with
  | [_, node_id, action] =>
    if (S "href").isPrefixOf action then
      match reSearchQuoted action with
      | some url => b.add_href_link node_id url (reSearchTooltip action)
      | none => b
    else b.add_click_action node_id action
  | _ => b

/-- `FlowchartParser._parse_flowchart_line`: dispatch on the line's
content (connection, node definition, style, classDef, click). -/
def FlowchartParser.parseFlowchartLine (line0 : Str) (b : FlowchartBuilder) :
    Except Unit FlowchartBuilder :=
  let line := pyStrip line0
  if line = [] || (S "%%").isPrefixOf line then .ok b
  else if arrowList.any (fun a => containsSeq a.val line) then
    .ok (FlowchartParser.parseConnection line b)
  else if (['[', '(', '{', '>'] : List Char).any (fun c => line.contains c) then
    .ok (FlowchartParser.parseNodeDefinition line b)
  else if (S "style ").isPrefixOf line then
    FlowchartParser.parseStyleDefinition line b
  else if (S "classDef ").isPrefixOf line then
    .ok (FlowchartParser.parseClassDefinition line b)
  else if (S "click ").isPrefixOf line then
    .ok (FlowchartParser.parseClickAction line b)
  else .ok b

/-- The `while lines[i] != '---'` scan of `parse_string`'s title
block: record the last `title:` line, consume through the closing
`---`. -/
def consumeTitleBlock : List Str → FlowchartBuilder → List Str × FlowchartBuilder
  | [], b => ([], b)
  | l :: rest, b =>
    if l = S "---" then (rest, b)
    else
      consumeTitleBlock rest
        (if (S "title:").isPrefixOf l then
          { b with title := some (pyStrip (l.drop 6)) }
        else b)

/-- The main line loop of `FlowchartParser.parse_string` with a fuel
bound on the number of iterations (each iteration consumes at least
one line, so fuel `length + 1` always suffices and the fuel-0 branch
is unreachable from `parseLines`): skip comments, handle `---` title
blocks, handle `flowchart ` direction lines (an unknown direction is
silently ignored), and otherwise dispatch to
`_parse_flowchart_line`. -/
def parseLinesAux : Nat → List Str → FlowchartBuilder → Except Unit FlowchartBuilder
  | 0, _, b => .ok b
  | _ + 1, [], b => .ok b
  | fuel + 1, l :: rest, b =>
    if (S "%%").isPrefixOf l then parseLinesAux fuel rest b
    else if l = S "---" then
      parseLinesAux fuel (consumeTitleBlock rest b).1 (consumeTitleBlock rest b).2
    else if (S "flowchart ").isPrefixOf l then
      parseLinesAux fuel rest
        (match Direction.ofVal (pyStrip (l.drop 10)) with
         | some d => b.set_direction d
         | none => b)
    else
      match FlowchartParser.parseFlowchartLine l b with
      | .ok b' => parseLinesAux fuel rest b'
      | .error e => .error e

/-- The line loop at its canonical fuel. -/
def parseLines (ls : List Str) (b : FlowchartBuilder) :
    Except Unit FlowchartBuilder :=
  parseLinesAux (ls.length + 1) ls b

/-- The line preparation shared by `parse_string` and
`validate_mermaid_syntax`:
`[line.strip() for line in text.split('\n') if line.strip()]`. -/
def processedLines (text : Str) : List Str :=
  ((splitOnChar '\n' text).map pyStrip).filter (fun l => l ≠ [])

/-- `FlowchartParser.parse_string`: strip lines, drop blank ones, run
the line loop on a fresh builder.  The result is `Except.error` exactly
when a style line raises (see `parseStyleParts`). -/
def FlowchartParser.parse_string (mermaid_code : Str) :
    Except Unit FlowchartBuilder :=
  parseLines (processedLines mermaid_code) {}

/-- Diagram dialects recognized by `FlowchartValidator`. -/
inductive DType where
  | flowchart | graph | pie | quadrant | gitgraph | gantt | sequence
  | classDiag | stateDiag | er | journey
  deriving DecidableEq, Repr

/-- Validator messages.  Each constructor stands for one distinct
f-string produced by `FlowchartValidator`; payloads carry the
interpolated data.  (`isolatedNodes` carries the isolated ids in node
insertion order; Python renders the set with unspecified order.) -/
inductive VMsg where
  | emptyDiagram
  | detectedConnectionsMissingDecl
  | couldNotDetermineType
  | unknownDirection (line_num : Nat) (direction : Str)
  | multipleArrows (line_num : Nat)
  | missingFlowchartDecl
  | basicValidationOnly (dtype : DType)
  | pieShouldHaveTitle
  | pieMustHaveData
  | quadrantShouldHaveTitle
  | quadrantMustHaveXAxis
  | quadrantMustHaveYAxis
  | quadrantShouldDefineLabels
  | quadrantShouldHaveDataPoints
  | mustContainNode
  | unknownSourceNode (node_id : Str)
  | unknownTargetNode (node_id : Str)
  | isolatedNodes (node_ids : List Str)
  | noStartNode
  | noEndNode
  deriving DecidableEq, Repr

/-- The validator's `(self.errors, self.warnings)` pair. -/
structure VState where
  errors : List VMsg := []
  warnings : List VMsg := []
  deriving DecidableEq, Repr

/-- The five direction codes `_validate_flowchart_syntax` accepts. -/
def validDirections : List Str := [S "TD", S "TB", S "BT", S "RL", S "LR"]

/-- One iteration of the `_validate_flowchart_syntax` line loop:
comment lines are skipped entirely; a declaration line sets the flag
and may warn about an unknown direction; a line containing `-->` or
`---` warns when those two tokens occur more than once in total. -/
def vfsLine (line_num : Nat) (line : Str) (acc : Bool × VState) : Bool × VState :=
  let (hasDecl, st) := acc
  if (S "%%").isPrefixOf line then (hasDecl, st)
  else
    let isFlow := (S "flowchart ").isPrefixOf line
    let isGraph := (S "graph ").isPrefixOf line
    let (hasDecl, st) :=
      if isFlow || isGraph then
        let direction := if isFlow then pyStrip (line.drop 10) else pyStrip (line.drop 6)
        if direction ≠ [] ∧ direction ∉ validDirections then
          (true, { st with warnings := st.warnings ++ [.unknownDirection line_num direction] })
        else (true, st)
      else (hasDecl, st)
    if containsSeq (S "-->") line || containsSeq (S "---") line then
      if countSeq (S "-->") line + countSeq (S "---") line > 1 then
        (hasDecl, { st with warnings := st.warnings ++ [.multipleArrows line_num] })
      else (hasDecl, st)
    else (hasDecl, st)

/-- The `enumerate(lines, 1)` loop of `_validate_flowchart_syntax`. -/
def vfsGo : Nat → List Str → Bool × VState → Bool × VState
  | _, [], acc => acc
  | line_num, l :: rest, acc => vfsGo (line_num + 1) rest (vfsLine line_num l acc)

/-- `FlowchartValidator._validate_flowchart_syntax`. -/
def FlowchartValidator.validateFlowchartSyntax (lines : List Str) (st : VState) :
    VState × Bool :=
  let (hasDecl, st) := vfsGo 1 lines (false, st)
  let st :=
    if hasDecl then st
    else { st with errors := st.errors ++ [.missingFlowchartDecl] }
  (st, st.errors.isEmpty)

/-- The flag loop of `_validate_pie_syntax`. -/
def vpsGo : List Str → Bool × Bool → Bool × Bool
  | [], acc => acc
  | l :: rest, (hasTitle, hasData) =>
    if (S "%%").isPrefixOf l then vpsGo rest (hasTitle, hasData)
    else if (S "pie").isPrefixOf l then
      vpsGo rest (hasTitle || containsSeq (S "title") l, hasData)
    else if l.contains ':' && l.contains '"' then vpsGo rest (hasTitle, true)
    else vpsGo rest (hasTitle, hasData)

/-- `FlowchartValidator._validate_pie_syntax`. -/
def FlowchartValidator.validatePieSyntax (lines : List Str) (st : VState) :
    VState × Bool :=
  let (hasTitle, hasData) := vpsGo lines (false, false)
  let st :=
    if hasTitle then st
    else { st with warnings := st.warnings ++ [.pieShouldHaveTitle] }
  let st :=
    if hasData then st
    else { st with errors := st.errors ++ [.pieMustHaveData] }
  (st, st.errors.isEmpty)

/-- Quadrant flags: title, x-axis, y-axis, quadrant labels, data
points. -/
structure QuadFlags where
  hasTitle : Bool := false
  hasX : Bool := false
  hasY : Bool := false
  hasQuadrants : Bool := false
  hasPoints : Bool := false

/-- The flag loop of `_validate_quadrant_syntax`. -/
def vqsGo : List Str → QuadFlags → QuadFlags
  | [], acc => acc
  | l :: rest, acc =>
    if (S "%%").isPrefixOf l then vqsGo rest acc
    else
      let ll := pyLower l
      if (S "quadrantchart").isPrefixOf ll then vqsGo rest acc
      else if (S "title ").isPrefixOf (pyStrip ll) then
        vqsGo rest { acc with hasTitle := true }
      else if (S "x-axis ").isPrefixOf (pyStrip ll) then
        vqsGo rest { acc with hasX := true }
      else if (S "y-axis ").isPrefixOf (pyStrip ll) then
        vqsGo rest { acc with hasY := true }
      else if (S "quadrant-").isPrefixOf (pyStrip ll) then
        vqsGo rest { acc with hasQuadrants := true }
      else if l.contains ':' && l.contains '[' && l.contains ']' then
        vqsGo rest { acc with hasPoints := true }
      else vqsGo rest acc

/-- `FlowchartValidator._validate_quadrant_syntax`. -/
def FlowchartValidator.validateQuadrantSyntax (lines : List Str) (st : VState) :
    VState × Bool :=
  let f := vqsGo lines {}
  let st :=
    if f.hasTitle then st
    else { st with warnings := st.warnings ++ [.quadrantShouldHaveTitle] }
  let st :=
    if f.hasX then st
    else { st with errors := st.errors ++ [.quadrantMustHaveXAxis] }
  let st :=
    if f.hasY then st
    else { st with errors := st.errors ++ [.quadrantMustHaveYAxis] }
  let st :=
    if f.hasQuadrants then st
    else { st with warnings := st.warnings ++ [.quadrantShouldDefineLabels] }
  let st :=
    if f.hasPoints then st
    else { st with warnings := st.warnings ++ [.quadrantShouldHaveDataPoints] }
  (st, st.errors.isEmpty)

/-- The diagram-type detection of `validate_mermaid_syntax` on the
lowercased first line.  The `classDiagram` test keeps the source's
mixed-case literal, which can never match a lowercased line. -/
def detectDType (first_line : Str) : Option DType :=
  if (S "flowchart ").isPrefixOf first_line then some .flowchart
  else if (S "graph ").isPrefixOf first_line then some .graph
  else if (S "pie").isPrefixOf first_line then some .pie
  else if (S "quadrantchart").isPrefixOf first_line then some .quadrant
  else if (S "gitgraph").isPrefixOf first_line then some .gitgraph
  else if (S "gantt").isPrefixOf first_line then some .gantt
  else if (S "sequencediagram").isPrefixOf first_line then some .sequence
  else if (S "classDiagram").isPrefixOf first_line then some .classDiag
  else if (S "statediagram").isPrefixOf first_line then some .stateDiag
  else if (S "erdiagram").isPrefixOf first_line then some .er
  else if (S "journey").isPrefixOf first_line then some .journey
  else none

/-- `FlowchartValidator.validate_mermaid_syntax`: strip and drop blank
lines; detect the type from the first line, else sniff the joined
lowercased content; dispatch to the per-type validation. -/
def FlowchartValidator.validate_mermaid_syntax (code : Str) : VState × Bool :=
  let lines := processedLines code
  if lines.isEmpty then ({ errors := [.emptyDiagram] }, false)
  else
    let first_line := pyLower (lines.headD [])
    let (dt, st) : Option DType × VState :=
      match detectDType first_line with
      | some d => (some d, {})
      | none =>
        let content := pyLower (joinWith ' ' lines)
        if containsSeq (S "pie title") content then (some .pie, {})
        else if containsSeq (S "-->") content || containsSeq (S "---") content then
          (some .flowchart, { warnings := [.detectedConnectionsMissingDecl] })
        else (none, { errors := [.couldNotDetermineType] })
    match dt with
    | none => (st, false)
    | some .flowchart => FlowchartValidator.validateFlowchartSyntax lines st
    | some .graph => FlowchartValidator.validateFlowchartSyntax lines st
    | some .pie => FlowchartValidator.validatePieSyntax lines st
    | some .quadrant => FlowchartValidator.validateQuadrantSyntax lines st
    | some d => ({ st with warnings := st.warnings ++ [.basicValidationOnly d] }, true)

/-- `FlowchartValidator.validate_builder`. -/
def FlowchartValidator.validate_builder (b : FlowchartBuilder) : VState × Bool :=
  if b.nodes.isEmpty then ({ errors := [.mustContainNode] }, false)
  else
    let node_ids := b.nodes.map (·.1)
    let errors : List VMsg :=
      (b.connections.map (fun c =>
        (if node_ids.contains c.from_node then [] else [VMsg.unknownSourceNode c.from_node])
        ++ (if node_ids.contains c.to_node then [] else [VMsg.unknownTargetNode c.to_node]))).flatten
    let isolated := node_ids.filter (fun k =>
      !(b.connections.any (fun c => c.from_node == k || c.to_node == k)))
    let startEmpty := b.connections.all (fun c =>
      b.connections.any (fun c' => c'.to_node == c.from_node))
    let endEmpty := b.connections.all (fun c =>
      b.connections.any (fun c' => c'.from_node == c.to_node))
    let warnings : List VMsg :=
      (if isolated ≠ [] then [.isolatedNodes isolated] else [])
      ++ (if startEmpty then [.noStartNode] else [])
      ++ (if endEmpty then [.noEndNode] else [])
    ({ errors := errors, warnings := warnings }, errors.isEmpty)

/-! Claim-side definitions and concrete inputs used by the theorems
below. -/

/-- The identifier grammar named by the spec:
`^[A-Za-z_][A-Za-z0-9_]*$`. -/
def matchesIdPattern : Str → Bool
  | [] => false
  | c :: rest => (isAsciiLetter c || c = '_') && rest.all isWordChar

/-- Stated from the spec's words for the multiple-arrow claim: the
total number of arrow-token occurrences in a line, summed across all
seven recognized arrow tokens. -/
def specArrowTotal (line : Str) : Nat :=
  (arrowList.map (fun a => countSeq a.val line)).sum

/-- Parse a document and re-serialize the resulting builder (`none`
when parsing raises). -/
def parseBuild (s : Str) : Option Str :=
  (FlowchartParser.parse_string s).toOption.map FlowchartBuilder.build

/-- A builder inside the claimed round-trip subset (rectangle node,
seven-token connections) whose rectangle label contains `]`. -/
def rtCexBuilder : FlowchartBuilder :=
  FlowchartBuilder.add_node {} (S "A") (S "a]b") .RECTANGLE

/-- A small builder exercised by the round-trip witness. -/
def rtWitnessBuilder : FlowchartBuilder :=
  ((({} : FlowchartBuilder).add_node (S "A") (S "Start") .RECTANGLE).add_node
      (S "B") (S "End?") .RHOMBUS).connect (S "A") (S "B") .ARROW (some (S "go"))

/-- The round-trip witness builder with a title and direction. -/
def rtWitnessBuilder2 : FlowchartBuilder :=
  { rtWitnessBuilder with title := some (S "My Flow"), direction := .LEFT_RIGHT }

/-- A builder whose only style serializes to an empty CSS string. -/
def falsyStyleBuilder : FlowchartBuilder :=
  { (({} : FlowchartBuilder).add_node (S "A") (S "Start") .RECTANGLE) with
      styles := [(S "A", { stroke_width := some 0 })] }

/-- A two-node builder with one connection, used as the
`validate_builder` witness. -/
def vbWitnessBuilder : FlowchartBuilder :=
  ((({} : FlowchartBuilder).add_node (S "A") (S "a") .RECTANGLE).add_node
      (S "B") (S "b") .RECTANGLE).connect (S "A") (S "B") .ARROW none

/-- No token of the arrow alphabet occurs in the string. -/
def arrowFree (s : Str) : Bool := arrowList.all (fun a => !(containsSeq a.val s))

/-- Conditions on a node under which its declaration line round-trips:
a subset shape whose label is nonempty, newline-free, arrow-free and
free of the shape's closing delimiter, on an undecorated node. -/
def nodeOk (n : FlowchartNode) : Bool :=
  (match n.shape with
   | .RECTANGLE => !(n.label.contains ']')
   | .ROUND_RECT => !(n.label.contains ')')
   | .RHOMBUS => !(n.label.contains '}')
   | _ => false)
  && n.label ≠ [] && !(n.label.contains '\n') && arrowFree n.label
  && n.style.isNone && n.css_class.isNone && n.click_action.isNone
  && n.href_link.isNone

/-- Conditions on one endpoint of a connection: nonempty, already
stripped, and free of newlines, pipes and arrow tokens. -/
def endpointOk (f : Str) : Bool :=
  f ≠ [] && pyStrip f == f && !(f.contains '\n') && !(f.contains '|') && arrowFree f

/-- Conditions under which a connection's declaration line
round-trips. -/
def connOk (c : FlowchartConnection) : Bool :=
  endpointOk c.from_node && endpointOk c.to_node
  && !((S "%%").isPrefixOf c.from_node)
  && c.from_node ≠ S "flowchart"
  && !((S "flowchart ").isPrefixOf c.from_node)
  && (match c.label with
      | none => true
      | some l =>
        l ≠ [] && pyStrip l == l && !(l.contains '\n') && !(l.contains '|')
          && arrowFree l)

/-! Theorems. -/

/-- A prefix of `x ++ y` is either a prefix of `x`, or extends `x` with
a prefix of `y`. -/
theorem prefix_append_cases (p x y : Str) (h : p <+: x ++ y) :
    p <+: x ∨ (x <+: p ∧ (p.drop x.length) <+: y) := by
  induction x generalizing p with
  | nil => exact Or.inr ⟨List.nil_prefix, h⟩
  | cons a x' ih =>
    cases p with
    | nil => exact Or.inl List.nil_prefix
    | cons b p' =>
      rw [List.cons_append, List.cons_prefix_cons] at h
      obtain ⟨rfl, h'⟩ := h
      rcases ih p' h' with h1 | ⟨h1, h2⟩
      · exact Or.inl (List.cons_prefix_cons.mpr ⟨rfl, h1⟩)
      · exact Or.inr ⟨List.cons_prefix_cons.mpr ⟨rfl, h1⟩, h2⟩

/-- A Boolean prefix of `X ++ c :: Y` that avoids `c` is already a
prefix of `X`. -/
theorem isPrefixOf_append_cons (t : Str) :
    ∀ (X : Str) {Y : Str} {c : Char}, c ∉ t →
      t.isPrefixOf (X ++ c :: Y) = true → t.isPrefixOf X = true := by
  induction t with
  | nil => intro X Y c _ _; rw [List.isPrefixOf_iff_prefix]; exact List.nil_prefix
  | cons a t' ih =>
    intro X Y c hc h
    cases X with
    | nil =>
      rw [List.nil_append, List.isPrefixOf_iff_prefix, List.cons_prefix_cons] at h
      exact absurd (h.1 ▸ List.mem_cons_self a t') hc
    | cons x X' =>
      rw [List.cons_append, List.isPrefixOf_iff_prefix, List.cons_prefix_cons] at h
      rw [List.isPrefixOf_iff_prefix, List.cons_prefix_cons]
      refine ⟨h.1, ?_⟩
      rw [← List.isPrefixOf_iff_prefix]
      exact ih X' (fun hm => hc (List.mem_cons_of_mem a hm))
        (List.isPrefixOf_iff_prefix.mpr h.2)

/-- A nonempty token's containment distributes over a separator
character the token does not contain. -/
theorem containsSeq_append_cons (t : Str) (ht : t ≠ []) {c : Char} (hc : c ∉ t) :
    ∀ (X Y : Str),
      containsSeq t (X ++ c :: Y) = (containsSeq t X || containsSeq t Y) := by
  intro X
  induction X with
  | nil =>
    intro Y
    rw [List.nil_append]
    have h2 : containsSeq t [] = false := by
      cases t with
      | nil => exact absurd rfl ht
      | cons a t' => rfl
    rw [h2, Bool.false_or]
    show (t.isPrefixOf (c :: Y) || containsSeq t Y) = containsSeq t Y
    have h1 : t.isPrefixOf (c :: Y) = false := by
      cases t with
      | nil => exact absurd rfl ht
      | cons a t' =>
        rw [Bool.eq_false_iff]
        intro hp
        rw [List.isPrefixOf_iff_prefix, List.cons_prefix_cons] at hp
        exact hc (hp.1 ▸ List.mem_cons_self a t')
    rw [h1, Bool.false_or]
  | cons x X' ih =>
    intro Y
    rw [List.cons_append, containsSeq, containsSeq, ih Y, ← Bool.or_assoc]
    have hpre : t.isPrefixOf (x :: (X' ++ c :: Y)) = t.isPrefixOf (x :: X') := by
      cases hv : t.isPrefixOf (x :: X') with
      | true =>
        rw [List.isPrefixOf_iff_prefix] at hv ⊢
        calc t <+: x :: X' := hv
          _ <+: (x :: X') ++ c :: Y := List.prefix_append _ _
      | false =>
        rw [Bool.eq_false_iff]
        intro hp
        have := isPrefixOf_append_cons t (x :: X') hc (by
          rw [← List.cons_append] at hp
          exact hp)
        rw [hv] at this
        exact absurd this (by simp)
    rw [hpre]

/-- Containment holds on the right part of an append. -/
theorem containsSeq_append_right (t X Y : Str) (h : containsSeq t Y = true) :
    containsSeq t (X ++ Y) = true := by
  induction X with
  | nil => exact h
  | cons x X' ih =>
    rw [List.cons_append, containsSeq, ih, Bool.or_true]

/-- A nonempty token is contained at its own occurrence. -/
theorem containsSeq_self_append (t Z : Str) (ht : t ≠ []) :
    containsSeq t (t ++ Z) = true := by
  cases t with
  | nil => exact absurd rfl ht
  | cons a t' =>
    have hp : (a :: t').isPrefixOf (a :: (t' ++ Z)) = true := by
      rw [List.isPrefixOf_iff_prefix, ← List.cons_append]
      exact List.prefix_append _ _
    rw [List.cons_append, containsSeq, hp, Bool.true_or]

/-- A `dropWhile` that preserves length is the identity. -/
theorem dropWhile_length_eq {p : Char → Bool} :
    ∀ {s : Str}, (s.dropWhile p).length = s.length → s.dropWhile p = s := by
  intro s
  induction s with
  | nil => intro _; rfl
  | cons c r ih =>
    intro h
    rw [List.dropWhile_cons] at h ⊢
    split at h
    · have : (r.dropWhile p).length ≤ r.length := by
        have := List.IsSuffix.length_le (List.dropWhile_suffix (l := r) p)
        exact this
      simp only [List.length_cons] at h
      omega
    · simp_all

/-- The right strip never lengthens a string. -/
theorem pyRStrip_length_le (s : Str) : (pyRStrip s).length ≤ s.length := by
  unfold pyRStrip
  rw [List.length_reverse]
  calc (s.reverse.dropWhile isSpaceChar).length
      ≤ s.reverse.length := List.IsSuffix.length_le (List.dropWhile_suffix _)
    _ = s.length := List.length_reverse s

/-- A strip-fixed string is fixed by both one-sided strips. -/
theorem strip_fixed_parts (s : Str) (h : pyStrip s = s) :
    pyLStrip s = s ∧ pyRStrip s = s := by
  have hl : (pyLStrip s).length ≤ s.length :=
    List.IsSuffix.length_le (List.dropWhile_suffix _)
  have hr : (pyRStrip (pyLStrip s)).length ≤ (pyLStrip s).length :=
    pyRStrip_length_le _
  have hlen : (pyStrip s).length = s.length := by rw [h]
  unfold pyStrip at hlen
  have hleq : (pyLStrip s).length = s.length := by omega
  have hL : pyLStrip s = s := dropWhile_length_eq hleq
  refine ⟨hL, ?_⟩
  have : pyStrip s = pyRStrip s := by unfold pyStrip; rw [hL]
  rw [← this, h]

/-- Left strip skips one leading space. -/
theorem pyLStrip_cons_space (s : Str) : pyLStrip (' ' :: s) = pyLStrip s := by
  simp [pyLStrip, List.dropWhile_cons, isSpaceChar]

/-- Strip skips one leading space. -/
theorem pyStrip_cons_space (s : Str) : pyStrip (' ' :: s) = pyStrip s := by
  unfold pyStrip
  rw [pyLStrip_cons_space]

/-- Left strip keeps a non-space head. -/
theorem pyLStrip_cons_nospace (c : Char) (s : Str) (hc : isSpaceChar c = false) :
    pyLStrip (c :: s) = c :: s := by
  simp [pyLStrip, List.dropWhile_cons, hc]

/-- Right strip drops one trailing space. -/
theorem pyRStrip_append_space (s : Str) : pyRStrip (s ++ [' ']) = pyRStrip s := by
  unfold pyRStrip
  rw [List.reverse_append]
  simp [List.dropWhile_cons, isSpaceChar]

/-- Appending a space to a strip-fixed nonempty string strips back to
it. -/
theorem pyStrip_append_space (F : Str) (h : pyStrip F = F) (hne : F ≠ []) :
    pyStrip (F ++ [' ']) = F := by
  obtain ⟨hL, hR⟩ := strip_fixed_parts F h
  cases F with
  | nil => exact absurd rfl hne
  | cons c F' =>
    have hc : isSpaceChar c = false := by
      by_contra hb
      rw [Bool.not_eq_false] at hb
      rw [pyLStrip, List.dropWhile_cons, if_pos hb] at hL
      have : (F'.dropWhile isSpaceChar).length ≤ F'.length :=
        List.IsSuffix.length_le (List.dropWhile_suffix _)
      have hlen : (F'.dropWhile isSpaceChar).length = F'.length + 1 := by
        rw [show F'.dropWhile isSpaceChar = pyLStrip F' from rfl] at *
        rw [hL]
        simp
      omega
    unfold pyStrip
    rw [List.cons_append, pyLStrip_cons_nospace c _ hc, ← List.cons_append,
      pyRStrip_append_space, hR]

/-- A string with non-space first and last characters is
strip-fixed. -/
theorem pyStrip_of_ends (c : Char) (mid : Str) (d : Char)
    (hc : isSpaceChar c = false) (hd : isSpaceChar d = false) :
    pyStrip (c :: mid ++ [d]) = c :: mid ++ [d] := by
  unfold pyStrip
  rw [List.cons_append, pyLStrip_cons_nospace c _ hc]
  unfold pyRStrip
  rw [← List.cons_append, List.reverse_append]
  simp only [List.reverse_cons, List.reverse_nil, List.nil_append,
    List.singleton_append, List.dropWhile_cons, hd, Bool.false_eq_true, if_false]
  simp

/-- A singleton with a non-space character is strip-fixed. -/
theorem pyStrip_singleton (c : Char) (hc : isSpaceChar c = false) :
    pyStrip [c] = [c] := by
  unfold pyStrip pyRStrip
  rw [pyLStrip_cons_nospace c [] hc]
  simp [List.dropWhile_cons, hc]

/-- Strip drops the node/connection lines' leading indent. -/
theorem pyStrip_indent (X : Str) : pyStrip (S "    " ++ X) = pyStrip X := by
  show pyStrip (' ' :: ' ' :: ' ' :: ' ' :: X) = pyStrip X
  rw [pyStrip_cons_space, pyStrip_cons_space, pyStrip_cons_space, pyStrip_cons_space]

/-- Splitting a string that avoids the separator yields the single
piece. -/
theorem splitOnChar_of_not_mem (c : Char) :
    ∀ (l : Str), c ∉ l → splitOnChar c l = [l] := by
  intro l
  induction l with
  | nil => intro _; rfl
  | cons x r ih =>
    intro h
    rw [splitOnChar,
      if_neg (show ¬ x = c from fun he => h (he ▸ List.mem_cons_self x r)),
      ih (fun hm => h (List.mem_cons_of_mem x hm))]

/-- Splitting at an explicit separator occurrence peels off the first
piece when that piece avoids the separator. -/
theorem splitOnChar_append_cons (c : Char) :
    ∀ (l rest : Str), c ∉ l →
      splitOnChar c (l ++ c :: rest) = l :: splitOnChar c rest := by
  intro l
  induction l with
  | nil =>
    intro rest _
    rw [List.nil_append, splitOnChar, if_pos rfl]
  | cons x r ih =>
    intro rest h
    rw [List.cons_append, splitOnChar,
      if_neg (show ¬ x = c from fun he => h (he ▸ List.mem_cons_self x r)),
      ih rest (fun hm => h (List.mem_cons_of_mem x hm))]

/-- `intercalate` unfolding for two or more pieces. -/
theorem joinWith_cons_cons (c : Char) (l l' : Str) (rest : List Str) :
    joinWith c (l :: l' :: rest) = l ++ c :: joinWith c (l' :: rest) := by
  simp [joinWith, List.intercalate, List.intersperse]

/-- Splitting undoes joining when no piece contains the separator. -/
theorem splitOnChar_joinWith (c : Char) :
    ∀ (ls : List Str), ls ≠ [] → (∀ l ∈ ls, c ∉ l) →
      splitOnChar c (joinWith c ls) = ls := by
  intro ls
  induction ls with
  | nil => intro h _; exact absurd rfl h
  | cons l rest ih =>
    intro _ hall
    cases rest with
    | nil =>
      have hj : joinWith c [l] = l := by
        simp [joinWith, List.intercalate, List.intersperse]
      rw [hj]
      exact splitOnChar_of_not_mem c l (hall l (List.mem_cons_self l []))
    | cons l' rest' =>
      rw [joinWith_cons_cons,
        splitOnChar_append_cons c l _ (hall l (List.mem_cons_self l _)),
        ih (by simp) (fun x hx => hall x (List.mem_cons_of_mem l hx))]

/-- `takeWhile` stops exactly at the first failing character. -/
theorem takeWhile_append_stop {p : Char → Bool} :
    ∀ (L : Str), (∀ x ∈ L, p x = true) → ∀ (c0 : Char), p c0 = false → ∀ (Z : Str),
      (L ++ c0 :: Z).takeWhile p = L := by
  intro L
  induction L with
  | nil =>
    intro _ c0 hc0 Z
    rw [List.nil_append, List.takeWhile_cons, hc0]
    simp
  | cons x r ih =>
    intro hL c0 hc0 Z
    rw [List.cons_append, List.takeWhile_cons, hL x (List.mem_cons_self x r)]
    simp only [if_true]
    rw [ih (fun y hy => hL y (List.mem_cons_of_mem x hy)) c0 hc0 Z]

/-- The split scanner passes over a token-free string unchanged. -/
theorem splitOnSeqAux_no_match (t : Str) (ht : t ≠ []) :
    ∀ (s acc : Str) (fuel : Nat), containsSeq t s = false → s.length + 1 ≤ fuel →
      splitOnSeqAux t fuel s acc = [acc.reverse ++ s] := by
  intro s
  induction s with
  | nil =>
    intro acc fuel _ hf
    cases fuel with
    | zero => omega
    | succ f => simp [splitOnSeqAux]
  | cons c r ih =>
    intro acc fuel hs hf
    cases fuel with
    | zero => simp at hf
    | succ f =>
      rw [containsSeq, Bool.or_eq_false_iff] at hs
      rw [splitOnSeqAux, if_neg (fun hp => by simp [hp.2] at hs)]
      rw [ih (c :: acc) f hs.2 (by simp at hf ⊢; omega)]
      simp

/-- The split scanner crosses a token-free chunk and its following
space, accumulating them. -/
theorem splitOnSeqAux_through_sep (t : Str) (ht : t ≠ []) (hsp : (' ' : Char) ∉ t) :
    ∀ (F acc Y : Str) (fuel : Nat), containsSeq t F = false →
      F.length + 1 ≤ fuel →
      splitOnSeqAux t fuel (F ++ ' ' :: Y) acc
        = splitOnSeqAux t (fuel - (F.length + 1)) Y (' ' :: (F.reverse ++ acc)) := by
  intro F
  induction F with
  | nil =>
    intro acc Y fuel _ hf
    cases fuel with
    | zero => omega
    | succ f =>
      rw [List.nil_append, splitOnSeqAux]
      rw [if_neg (fun hp => by
        rcases t with _ | ⟨a, t₀⟩
        · exact ht rfl
        · rw [List.isPrefixOf_iff_prefix, List.cons_prefix_cons] at hp
          exact hsp (hp.2.1 ▸ List.mem_cons_self a t₀))]
      simp
  | cons x F' ih =>
    intro acc Y fuel hF hf
    cases fuel with
    | zero => simp at hf
    | succ f =>
      rw [containsSeq, Bool.or_eq_false_iff] at hF
      rw [List.cons_append, splitOnSeqAux]
      rw [if_neg (fun hp => by
        have h2 : List.isPrefixOf t ((x :: F') ++ ' ' :: Y) = true := hp.2
        have := isPrefixOf_append_cons t (x :: F') hsp h2
        rw [hF.1] at this
        exact absurd this (by simp))]
      rw [ih (x :: acc) Y f hF.2 (by simp at hf ⊢; omega)]
      have hfe : f - (F'.length + 1) = (f + 1) - ((x :: F').length + 1) := by
        simp only [List.length_cons]
        omega
      rw [hfe]
      simp

/-- Splitting a rendered connection line on its arrow token gives
exactly the two surrounding parts. -/
theorem splitOnSeq_conn (t : Str) (ht : t ≠ []) (hsp : (' ' : Char) ∉ t)
    (F Z : Str) (hF : containsSeq t F = false) (hZ : containsSeq t Z = false) :
    splitOnSeq t (F ++ ' ' :: (t ++ Z)) = [F ++ [' '], Z] := by
  obtain ⟨a, t₀, rfl⟩ : ∃ a t₀, t = a :: t₀ := by
    cases t with
    | nil => exact absurd rfl ht
    | cons a t₀ => exact ⟨a, t₀, rfl⟩
  unfold splitOnSeq
  have hlen : (F ++ ' ' :: ((a :: t₀) ++ Z)).length
      = F.length + t₀.length + Z.length + 2 := by
    simp; omega
  rw [splitOnSeqAux_through_sep (a :: t₀) ht hsp F [] ((a :: t₀) ++ Z) _ hF
    (by omega)]
  have hfe : (F ++ ' ' :: ((a :: t₀) ++ Z)).length + 1 - (F.length + 1)
      = (t₀.length + Z.length + 1) + 1 := by omega
  rw [hfe, List.cons_append, splitOnSeqAux]
  rw [if_pos ⟨ht, by
    rw [← List.cons_append, List.isPrefixOf_iff_prefix]
    exact List.prefix_append (a :: t₀) Z⟩]
  have hdrop : List.drop (a :: t₀).length (a :: (t₀ ++ Z)) = Z := by
    rw [← List.cons_append]
    exact List.drop_left _ _
  rw [hdrop]
  have hfuel2 : Z.length + 1 ≤ t₀.length + Z.length + 1 := by omega
  rw [splitOnSeqAux_no_match (a :: t₀) ht Z [] _ hZ hfuel2]
  simp

/-- `tryDelimMatch` succeeds on a delimited nonempty run. -/
theorem tryDelimMatch_found (d : Char) (L Z : Str) (hL : d ∉ L) (hne : L ≠ []) :
    tryDelimMatch d (L ++ d :: Z) = some L := by
  have htW : (L ++ d :: Z).takeWhile (· ≠ d) = L :=
    takeWhile_append_stop L
      (fun x hx => decide_eq_true (show x ≠ d from fun h => hL (h ▸ hx)))
      d (by simp) Z
  simp only [tryDelimMatch, htW, List.drop_left]
  rw [if_pos ⟨hne, rfl⟩]

/-- The pipe-label search skips pipe-free text. -/
theorem reSearchPipe_append (X : Str) :
    ∀ (Y : Str), '|' ∉ X → reSearchPipe (X ++ Y) = reSearchPipe Y := by
  induction X with
  | nil => intro Y _; rfl
  | cons x X' ih =>
    intro Y hX
    have hx : ¬ (x = '|') := fun he => hX (he ▸ List.mem_cons_self x X')
    rw [List.cons_append, reSearchPipe, if_neg hx]
    exact ih Y (fun hm => hX (List.mem_cons_of_mem x hm))

/-- The pipe-label search finds a pipe-delimited nonempty run. -/
theorem reSearchPipe_found (L rest : Str) (hL : '|' ∉ L) (hne : L ≠ []) :
    reSearchPipe ('|' :: (L ++ '|' :: rest)) = some L := by
  rw [reSearchPipe, if_pos rfl, tryDelimMatch_found '|' L rest hL hne]

/-- The pipe-pattern removal is the identity on pipe-free text. -/
theorem reSubPipeAux_no_pipe :
    ∀ (s : Str) (fuel : Nat), '|' ∉ s → s.length + 1 ≤ fuel →
      reSubPipeAux fuel s = s := by
  intro s
  induction s with
  | nil =>
    intro fuel _ hf
    cases fuel with
    | zero => omega
    | succ f => rfl
  | cons c r ih =>
    intro fuel hs hf
    cases fuel with
    | zero => simp at hf
    | succ f =>
      have hx : ¬ (c = '|') := fun he => hs (he ▸ List.mem_cons_self c r)
      rw [reSubPipeAux, if_neg hx]
      rw [ih f (fun hm => hs (List.mem_cons_of_mem c hm)) (by simp at hf ⊢; omega)]

/-- Removing the pipe pattern from a rendered `|label| to` part leaves
the space and target. -/
theorem reSubPipe_strip_label (L T : Str) (hL : '|' ∉ L) (hne : L ≠ [])
    (hT : '|' ∉ T) :
    reSubPipe ('|' :: (L ++ '|' :: (' ' :: T))) = ' ' :: T := by
  unfold reSubPipe
  have hlen : ('|' :: (L ++ '|' :: (' ' :: T))).length + 1
      = (L.length + T.length + 3) + 1 := by simp; omega
  rw [hlen, reSubPipeAux, if_pos rfl, tryDelimMatch_found '|' L (' ' :: T) hL hne]
  have hdrop : (L ++ '|' :: (' ' :: T)).drop (L.length + 1) = ' ' :: T := by
    rw [show L ++ '|' :: (' ' :: T) = (L ++ ['|']) ++ ' ' :: T by simp,
      show L.length + 1 = (L ++ ['|']).length by simp]
    exact List.drop_left _ _
  show reSubPipeAux (L.length + T.length + 3)
      ((L ++ '|' :: (' ' :: T)).drop (L.length + 1)) = ' ' :: T
  rw [hdrop]
  exact reSubPipeAux_no_pipe (' ' :: T) _
    (by
      intro hm
      rcases List.mem_cons.mp hm with h | h
      · exact absurd h.symm (by decide)
      · exact hT h)
    (by simp; omega)

/-- Word characters are fixed by the sanitizer's substitution. -/
theorem map_wordchar_fix (x : Str) (hx : ∀ c ∈ x, isWordChar c = true) :
    x.map (fun c => if isWordChar c then c else '_') = x := by
  induction x with
  | nil => rfl
  | cons c rest ih =>
    have h1 := hx c (List.mem_cons_self c rest)
    have h2 := ih (fun d hd => hx d (List.mem_cons_of_mem c hd))
    simp [h1, h2]

/-- ASCII letters are word characters. -/
theorem word_of_letter (c : Char) (h : isAsciiLetter c = true) :
    isWordChar c = true := by
  unfold isAsciiLetter at h
  unfold isWordChar
  rw [Bool.or_eq_true] at h
  rcases h with h' | h' <;> simp [h']

/-- A string matching the identifier pattern consists of word
characters. -/
theorem matchesId_all_word (id : Str) (h : matchesIdPattern id = true) :
    ∀ c ∈ id, isWordChar c = true := by
  cases id with
  | nil => exact absurd h (by decide)
  | cons c rest =>
    unfold matchesIdPattern at h
    rw [Bool.and_eq_true] at h
    intro d hd
    rcases List.mem_cons.mp hd with rfl | hd'
    · have hh := h.1
      rw [Bool.or_eq_true] at hh
      rcases hh with h' | h'
      · exact word_of_letter d h'
      · rw [decide_eq_true_eq] at h'
        subst h'
        decide
    · exact List.all_eq_true.mp h.2 d hd'

/-- The sanitizer fixes strings that already match the identifier
pattern. -/
theorem sanitize_id_fix (id : Str) (h : matchesIdPattern id = true) :
    sanitize_id id = id := by
  cases id with
  | nil => exact absurd h (by decide)
  | cons c rest =>
    have hall := matchesId_all_word (c :: rest) h
    have hmap := map_wordchar_fix (c :: rest) hall
    unfold matchesIdPattern at h
    rw [Bool.and_eq_true] at h
    simp only [sanitize_id, hmap, List.headD_cons]
    rw [if_neg (show ¬ (c :: rest ≠ [] ∧ ¬ isAsciiLetter c = true ∧ c ≠ '_') from
      fun hcond => by
        have hh := h.1
        rw [Bool.or_eq_true] at hh
        rcases hh with h' | h'
        · exact hcond.2.1 h'
        · rw [decide_eq_true_eq] at h'
          exact hcond.2.2 h')]
    rw [if_neg (List.cons_ne_nil c rest)]

/-- Inserting a fresh key into an association list appends it. -/
theorem dictInsert_fresh {α : Type} (k : Str) (v : α) :
    ∀ (m : List (Str × α)), k ∉ m.map Prod.fst → dictInsert k v m = m ++ [(k, v)] := by
  intro m
  induction m with
  | nil => intro _; rfl
  | cons p rest ih =>
    intro h
    rw [List.map_cons] at h
    rw [dictInsert,
      if_neg (show ¬ p.1 = k from
        fun he => h (List.mem_cons.mpr (Or.inl he.symm))),
      ih (fun hm => h (List.mem_cons_of_mem p.1 hm))]
    rfl

/-- Containment skips a leading character the token avoids. -/
theorem containsSeq_cons_skip (tok : Str) (htok : tok ≠ []) {c : Char}
    (hc : c ∉ tok) (W : Str) :
    containsSeq tok (c :: W) = containsSeq tok W := by
  have h0 : containsSeq tok [] = false := by
    cases tok with
    | nil => exact absurd rfl htok
    | cons a b => rfl
  have := containsSeq_append_cons tok htok hc [] W
  simpa [h0] using this

/-- A cons whose tail contains the token contains it. -/
theorem containsSeq_cons_of_tail (tok : Str) (c : Char) (W : Str)
    (h : containsSeq tok W = true) : containsSeq tok (c :: W) = true := by
  rw [containsSeq, h, Bool.or_true]

/-- A right-strip-fixed nonempty string ends in a non-space
character. -/
theorem rstrip_fixed_last (T : Str) (h : pyRStrip T = T) (hne : T ≠ []) :
    ∃ T₀ d, T = T₀ ++ [d] ∧ isSpaceChar d = false := by
  rcases hrev : T.reverse with _ | ⟨d, R₀⟩
  · exact absurd (by simpa using congrArg List.reverse hrev) hne
  · refine ⟨R₀.reverse, d, by simpa using congrArg List.reverse hrev, ?_⟩
    by_contra hb
    rw [Bool.not_eq_false] at hb
    unfold pyRStrip at h
    rw [hrev, List.dropWhile_cons, if_pos hb] at h
    have h1 : (R₀.dropWhile isSpaceChar).length ≤ R₀.length :=
      List.IsSuffix.length_le (List.dropWhile_suffix _)
    have h2 : ((R₀.dropWhile isSpaceChar).reverse).length = T.length := by rw [h]
    have h3 : T.length = R₀.length + 1 := by
      have := congrArg List.length hrev
      simp at this
      omega
    simp at h2
    omega

/-- The shape matcher succeeds on a rendered shape fragment. -/
theorem reMatchShape_hit (openC closeC : Char) (hop : isWordChar openC = false)
    (id label : Str) (hid : matchesIdPattern id = true)
    (hlab : label ≠ []) (hclose : closeC ∉ label) :
    reMatchShape openC closeC (id ++ openC :: (label ++ [closeC]))
      = some (id, label) := by
  have hidw := matchesId_all_word id hid
  have hidne : id ≠ [] := by
    cases id with
    | nil => exact absurd hid (by decide)
    | cons a b => exact List.cons_ne_nil a b
  have htw : (id ++ openC :: (label ++ [closeC])).takeWhile isWordChar = id :=
    takeWhile_append_stop id hidw openC hop _
  have hlw : (label ++ [closeC]).takeWhile (· ≠ closeC) = label :=
    takeWhile_append_stop label
      (fun x hx => decide_eq_true (show x ≠ closeC from fun he => hclose (he ▸ hx)))
      closeC (by simp) []
  simp only [reMatchShape, htw, hlw, List.drop_left]
  simp [hidne, hlab]

/-- The shape matcher fails when the delimiter after the identifier is
a different one. -/
theorem reMatchShape_miss (openC closeC openC' : Char) (hne : openC' ≠ openC)
    (hop' : isWordChar openC' = false)
    (id : Str) (hid : matchesIdPattern id = true) (R : Str) :
    reMatchShape openC closeC (id ++ openC' :: R) = none := by
  have hidw := matchesId_all_word id hid
  have hidne : id ≠ [] := by
    cases id with
    | nil => exact absurd hid (by decide)
    | cons a b => exact List.cons_ne_nil a b
  have htw : (id ++ openC' :: R).takeWhile isWordChar = id :=
    takeWhile_append_stop id hidw openC' hop' _
  simp only [reMatchShape, htw, List.drop_left]
  simp [hidne, hne]

/-- Word characters are not whitespace. -/
theorem word_not_space (c : Char) (h : isWordChar c = true) :
    isSpaceChar c = false := by
  by_contra hb
  rw [Bool.not_eq_false] at hb
  unfold isSpaceChar at hb
  rw [Bool.or_eq_true, Bool.or_eq_true, Bool.or_eq_true] at hb
  rcases hb with ((hb | hb) | hb) | hb <;>
    (rw [decide_eq_true_eq] at hb; subst hb; exact absurd h (by decide))

/-- A prefix is contained. -/
theorem containsSeq_of_prefix (t s : Str) (h : t <+: s) :
    containsSeq t s = true := by
  cases s with
  | nil =>
    have : t = [] := List.prefix_nil.mp h
    subst this
    rfl
  | cons c r =>
    rw [containsSeq, List.isPrefixOf_iff_prefix.mpr h, Bool.true_or]

/-- Every character of a contained token occurs in the string. -/
theorem mem_of_containsSeq (t s : Str) (h : containsSeq t s = true) :
    ∀ c ∈ t, c ∈ s := by
  induction s with
  | nil =>
    intro c hc
    cases t with
    | nil => simp at hc
    | cons a t' => simp [containsSeq, List.isPrefixOf] at h
  | cons x s' ih =>
    intro c hc
    rw [containsSeq, Bool.or_eq_true] at h
    rcases h with h | h
    · rw [List.isPrefixOf_iff_prefix] at h
      exact h.subset hc
    · exact List.mem_cons_of_mem x (ih h c hc)

/-- A token whose head is not a word character does not occur in an
all-word string. -/
theorem contains_all_word_false (tok s : Str) (htokne : tok ≠ [])
    (htokhead : isWordChar (tok.headD ' ') = false)
    (hs : ∀ c ∈ s, isWordChar c = true) : containsSeq tok s = false := by
  by_contra hb
  rw [Bool.not_eq_false] at hb
  cases tok with
  | nil => exact absurd rfl htokne
  | cons a t₀ =>
    have : a ∈ s := mem_of_containsSeq _ s hb a (List.mem_cons_self a t₀)
    have hw := hs a this
    rw [List.headD_cons] at htokhead
    rw [hw] at htokhead
    exact absurd htokhead (by simp)

/-- A keyword containing a non-word character is never a prefix of an
identifier-headed line. -/
theorem no_prefix_wordid (p id : Str) (hid : matchesIdPattern id = true)
    (hbad : ∃ c ∈ p, isWordChar c = false)
    (op : Char) (hop : op ∉ p) (R : Str) : ¬ (p <+: id ++ op :: R) := by
  intro hp
  obtain ⟨cbad, hcbadmem, hcbad⟩ := hbad
  rcases prefix_append_cases p id _ hp with h | ⟨h1, h2⟩
  · have : cbad ∈ id := h.subset hcbadmem
    have := matchesId_all_word id hid cbad this
    rw [this] at hcbad
    exact absurd hcbad (by simp)
  · rcases hd : p.drop id.length with _ | ⟨x, xs⟩
    · have hlen : p.length ≤ id.length := List.drop_eq_nil_iff.mp hd
      have heq : id = p :=
        List.IsPrefix.eq_of_length h1 (le_antisymm h1.length_le hlen)
      subst heq
      have := matchesId_all_word id hid cbad hcbadmem
      rw [this] at hcbad
      exact absurd hcbad (by simp)
    · have hx : x = op := by
        have h2' := hd ▸ h2
        exact (List.cons_prefix_cons.mp h2').1
      have hxmem : x ∈ p := List.mem_of_mem_drop (hd ▸ List.mem_cons_self x xs)
      exact hop (hx ▸ hxmem)

/-- A keyword is not a prefix of a rendered connection line when it is
not a prefix of the source endpoint and has no usable space
position. -/
theorem no_prefix_connline (p F R : Str) (hp1 : ¬ (p <+: F))
    (hcond : ∀ k, k < p.length → ((p.drop k).headD '?' = ' ') → F ≠ p.take k) :
    ¬ (p <+: F ++ ' ' :: R) := by
  intro hp
  rcases prefix_append_cases p F _ hp with h | ⟨h1, h2⟩
  · exact hp1 h
  · rcases hd : p.drop F.length with _ | ⟨x, xs⟩
    · have hlen : p.length ≤ F.length := List.drop_eq_nil_iff.mp hd
      have heq : F = p :=
        List.IsPrefix.eq_of_length h1 (le_antisymm h1.length_le hlen)
      subst heq
      exact hp1 List.prefix_rfl
    · have hx : x = ' ' := by
        have h2' := hd ▸ h2
        exact (List.cons_prefix_cons.mp h2').1

      have hklt : F.length < p.length := by
        by_contra hge
        rw [not_lt] at hge
        rw [List.drop_eq_nil_of_le hge] at hd
        exact List.noConfusion hd
      have hhead : (p.drop F.length).headD '?' = ' ' := by rw [hd, hx]; rfl
      exact hcond F.length hklt hhead (List.prefix_iff_eq_take.mp h1)


/-- Every character produced by the sanitizer's substitution stage is
a word character. -/
theorem subst_isWordChar (s : Str) :
    ∀ c ∈ s.map (fun c => if isWordChar c then c else '_'), isWordChar c = true := by
  intro c hc
  rcases List.mem_map.mp hc with ⟨d, _, rfl⟩
  by_cases h : isWordChar d = true
  · simp [h]
  · simp only [h, Bool.false_eq_true, if_false]
    decide

/-- C5: for every input string, `_sanitize_id` returns a nonempty
identifier matching `^[A-Za-z_][A-Za-z0-9_]*$`; in particular the
three example inputs sanitize as the spec states. -/
theorem c5_sanitize_id_pattern :
    (∀ s : Str, matchesIdPattern (sanitize_id s) = true)
    ∧ sanitize_id (S "test-id with spaces!") = S "test_id_with_spaces_"
    ∧ sanitize_id (S "123numeric") = S "node_123numeric"
    ∧ sanitize_id (S "") = S "node" := by
  refine ⟨?_, by decide, by decide, by decide⟩
  intro s
  have hall := subst_isWordChar s
  simp only [sanitize_id]
  generalize hmap : s.map (fun c => if isWordChar c then c else '_') = t at hall ⊢
  rcases t with _ | ⟨c, rest⟩
  · decide
  · have hcw : isWordChar c = true := hall c (List.mem_cons_self c rest)
    have hrestw : rest.all isWordChar = true :=
      List.all_eq_true.mpr fun d hd => hall d (List.mem_cons_of_mem c hd)
    simp only [List.headD_cons]
    split_ifs with h1 h2 h3
    · exact absurd h2 (by simp [S])
    · show matchesIdPattern ('n' :: 'o' :: 'd' :: 'e' :: '_' :: c :: rest) = true
      simp only [matchesIdPattern, List.all_cons, hrestw, hcw]
      decide
    · simp at h3
    · simp only [matchesIdPattern, hrestw, Bool.and_true]
      by_cases hl : isAsciiLetter c = true
      · simp [hl]
      · have hc' : c = '_' := by
          by_contra hne
          exact h1 ⟨List.cons_ne_nil c rest, by simpa using hl, hne⟩
        simp [hc']

/-- C6 counterexample: the claim predicts run-collapsing
(`"a--b" → "a_b"`), but the sanitizer substitutes per character:
`sanitize("a--b") = "a__b"`. -/
theorem c6_counterexample :
    sanitize_id (S "a--b") ≠ S "a_b" ∧ sanitize_id (S "a--b") = S "a__b" := by
  decide

/-- C6 amended: sanitization replaces each non-word character with its
own underscore (one underscore per character, length preserved), so a
run of `k` illegal characters becomes `k` underscores, not one. -/
theorem c6_sanitize_per_char_amended (x run y : Str)
    (hrun : ∀ c ∈ run, isWordChar c = false)
    (hx : ∀ c ∈ x, isWordChar c = true) (hxne : x ≠ [])
    (hhead : isAsciiLetter (x.headD '_') = true) :
    sanitize_id (x ++ run ++ y) =
      x ++ List.replicate run.length '_' ++
        y.map (fun c => if isWordChar c then c else '_') := by
  obtain ⟨c, xrest, rfl⟩ : ∃ c xrest, x = c :: xrest := by
    cases x with
    | nil => exact absurd rfl hxne
    | cons c xs => exact ⟨c, xs, rfl⟩
  simp only [List.headD_cons] at hhead
  have hxmap := map_wordchar_fix (c :: xrest) hx
  have hrunmap : run.map (fun c => if isWordChar c then c else '_')
      = List.replicate run.length '_' := by
    rw [List.eq_replicate_iff]
    refine ⟨by simp, ?_⟩
    intro d hd
    rcases List.mem_map.mp hd with ⟨e, he, rfl⟩
    simp [hrun e he]
  simp only [sanitize_id]
  rw [List.map_append, List.map_append, hxmap, hrunmap]
  simp only [List.cons_append, List.headD_cons]
  split_ifs <;> simp_all

/-- C6 amended witness: `"a--b"` sanitizes with one underscore per
illegal character. -/
theorem c6_sanitize_per_char_amended_witness :
    sanitize_id (S "a" ++ S "--" ++ S "b")
      = S "a" ++ List.replicate (S "--").length '_' ++
          (S "b").map (fun c => if isWordChar c then c else '_') :=
  c6_sanitize_per_char_amended (S "a") (S "--") (S "b")
    (by decide) (by decide) (by decide) (by decide)

/-- C1 counterexample: a builder inside the claimed subset (only
rectangle/round/rhombus nodes, no connections, no subgraphs or
decorations) whose serialization does not survive a parse/serialize
round trip, because its rectangle label contains `]`. -/
theorem c1_counterexample :
    parseBuild rtCexBuilder.build ≠ some rtCexBuilder.build
    ∧ (∀ p ∈ rtCexBuilder.nodes, p.2.shape = NodeShape.RECTANGLE)
    ∧ rtCexBuilder.connections.length = 0
    ∧ rtCexBuilder.subgraphs.length = 0
    ∧ rtCexBuilder.styles.length = 0
    ∧ rtCexBuilder.css_classes.length = 0
    ∧ rtCexBuilder.click_actions.length = 0
    ∧ rtCexBuilder.href_links.length = 0 := by
  decide

/-- C2 counterexample: `parse_string` is not total — a style line
whose `stroke-width` value is not an integer literal reaches `int()`
and raises `ValueError`. -/
theorem c2_counterexample :
    (FlowchartParser.parse_string (S "style A stroke-width:abc")).toOption.isSome
      = false := by
  decide

/-- C3 counterexample: on the document `A --> B` (arrow present, no
declaration line) the validator does classify it as a flowchart and
records the sniffing warning, but it then records the
missing-declaration error and returns false, not true. -/
theorem c3_counterexample :
    (FlowchartValidator.validate_mermaid_syntax (S "A --> B")).2 = false
    ∧ VMsg.missingFlowchartDecl
        ∈ (FlowchartValidator.validate_mermaid_syntax (S "A --> B")).1.errors
    ∧ VMsg.detectedConnectionsMissingDecl
        ∈ (FlowchartValidator.validate_mermaid_syntax (S "A --> B")).1.warnings := by
  decide

/-- C7 counterexample: the line `A -.-> B -.-> C` contains more than
one arrow-token occurrence summed over the seven tokens, yet the
validator emits no multiple-arrows warning, because the code only
counts `-->` and `---`. -/
theorem c7_counterexample :
    specArrowTotal (S "A -.-> B -.-> C") > 1
    ∧ (FlowchartValidator.validate_mermaid_syntax
        (S "flowchart TD\nA -.-> B -.-> C")).1.warnings = [] := by
  decide

/-- C9: a connection whose label is the empty string renders exactly
like an unlabeled connection: `{from} {arrow} {to}` with no `|...|`
segment. -/
theorem c9_empty_label_connection (f t : Str) (a : ArrowType) :
    FlowchartConnection.to_mermaid ⟨f, t, a, some []⟩
      = FlowchartConnection.to_mermaid ⟨f, t, a, none⟩
    ∧ FlowchartConnection.to_mermaid ⟨f, t, a, some []⟩
      = f ++ S " " ++ a.val ++ S " " ++ t := by
  constructor <;> simp [FlowchartConnection.to_mermaid, strTruthy]

/-- C10: falsy style fields are omitted by `to_css` (in particular
`stroke_width = 0` and empty-string fields), and a builder whose
recorded styles all serialize to the empty CSS string emits no `style`
line: its document equals the document of the same builder with no
styles at all. -/
theorem c10_falsy_style_omitted :
    NodeStyle.to_css { stroke_width := some 0 } = []
    ∧ NodeStyle.to_css
        ⟨some [], some [], some 0, some [], some [], some []⟩ = []
    ∧ ∀ b : FlowchartBuilder, (∀ p ∈ b.styles, NodeStyle.to_css p.2 = []) →
        b.build = FlowchartBuilder.build { b with styles := [] } := by
  refine ⟨by decide, by decide, ?_⟩
  intro b h
  have hfilter : b.styles.filter (fun p => p.2.to_css ≠ []) = [] := by
    rw [List.filter_eq_nil_iff]
    intro p hp
    simp [h p hp]
  simp only [FlowchartBuilder.build, hfilter]
  simp

/-- C10 witness: a concrete builder styled with `stroke_width = 0`
serializes identically to the same builder without the style. -/
theorem c10_falsy_style_omitted_witness :
    falsyStyleBuilder.build
      = FlowchartBuilder.build { falsyStyleBuilder with styles := [] } :=
  c10_falsy_style_omitted.2.2 falsyStyleBuilder (by decide)

/-- If a token does not occur in a string, its occurrence count is
zero, at any fuel. -/
theorem countSeqAux_eq_zero (t : Str) :
    ∀ (fuel : Nat) (s : Str), containsSeq t s = false → countSeqAux t fuel s = 0 := by
  intro fuel
  induction fuel with
  | zero => intro s _; rfl
  | succ f ih =>
    intro s hs
    cases s with
    | nil => rfl
    | cons c rest =>
      simp only [containsSeq, Bool.or_eq_false_iff] at hs
      rw [countSeqAux, if_neg (fun h => by simp [h.2] at hs)]
      exact ih rest hs.2

/-- If the two counted tokens total more than one occurrence, at least
one of them occurs in the line. -/
theorem sum_pos_contains (l : Str)
    (h : countSeq (S "-->") l + countSeq (S "---") l > 1) :
    (containsSeq (S "-->") l || containsSeq (S "---") l) = true := by
  by_contra hb
  simp only [Bool.or_eq_true, not_or, Bool.not_eq_true] at hb
  have h1 := countSeqAux_eq_zero (S "-->") (l.length + 1) l hb.1
  have h2 := countSeqAux_eq_zero (S "---") (l.length + 1) l hb.2
  unfold countSeq at h
  omega

/-- Membership of a multiple-arrows warning after one line step of the
flowchart validation loop. -/
theorem vfsLine_multArrows_mem (n k : Nat) (l : Str) (acc : Bool × VState) :
    (VMsg.multipleArrows k ∈ (vfsLine n l acc).2.warnings) ↔
      (VMsg.multipleArrows k ∈ acc.2.warnings ∨
        (k = n ∧ ¬ ((S "%%") <+: l) ∧
          countSeq (S "-->") l + countSeq (S "---") l > 1)) := by
  obtain ⟨hasDecl, st⟩ := acc
  simp only [vfsLine]
  split_ifs with hc hd hw ha hs <;> simp_all [List.mem_append]
  all_goals
    first
      | omega
      | (intro _ hsum
         have h1 := countSeqAux_eq_zero (S "-->") (l.length + 1) l hd.1
         have h2 := countSeqAux_eq_zero (S "---") (l.length + 1) l hd.2
         unfold countSeq at hsum
         omega)

/-- Warnings about line numbers below the running counter are
untouched by the rest of the flowchart validation loop. -/
theorem vfsGo_multArrows_lt (ls : List Str) :
    ∀ (n : Nat) (acc : Bool × VState) (k : Nat), k < n →
      (VMsg.multipleArrows k ∈ (vfsGo n ls acc).2.warnings ↔
        VMsg.multipleArrows k ∈ acc.2.warnings) := by
  induction ls with
  | nil => intro n acc k _; rfl
  | cons l rest ih =>
    intro n acc k hk
    rw [vfsGo, ih (n + 1) _ k (Nat.lt_succ_of_lt hk), vfsLine_multArrows_mem]
    constructor
    · rintro (h | ⟨rfl, -⟩)
      · exact h
      · exact absurd hk (Nat.lt_irrefl k)
    · exact Or.inl

/-- The multiple-arrows warning for the line at offset `pre.length` of
the loop appears exactly when it was already present or that line's
two-token count exceeds one. -/
theorem vfsGo_multArrows_at (pre : List Str) :
    ∀ (n : Nat) (acc : Bool × VState) (line : Str) (post : List Str),
      (VMsg.multipleArrows (n + pre.length) ∈
        (vfsGo n (pre ++ line :: post) acc).2.warnings) ↔
      (VMsg.multipleArrows (n + pre.length) ∈ acc.2.warnings ∨
        (¬ ((S "%%") <+: line) ∧
          countSeq (S "-->") line + countSeq (S "---") line > 1)) := by
  induction pre with
  | nil =>
    intro n acc line post
    rw [List.nil_append, vfsGo,
      vfsGo_multArrows_lt post (n + 1) _ (n + [].length) (by simp),
      vfsLine_multArrows_mem]
    simp
  | cons p pre' ih =>
    intro n acc line post
    rw [List.cons_append, vfsGo]
    have : n + (p :: pre').length = (n + 1) + pre'.length := by
      simp [List.length_cons]; omega
    rw [this, ih (n + 1) _ line post, vfsLine_multArrows_mem]
    constructor
    · rintro ((h | ⟨he, -⟩) | h)
      · exact Or.inl h
      · omega
      · exact Or.inr h
    · rintro (h | h)
      · exact Or.inl (Or.inl h)
      · exact Or.inr h

/-- C7 amended: during flowchart/graph validation a non-comment line
receives the multiple-arrows warning exactly when
`line.count('-->') + line.count('---') > 1` — only those two tokens
are counted, not all seven. -/
theorem c7_multiple_arrows_amended (pre post : List Str) (line : Str) (st : VState)
    (hst : VMsg.multipleArrows (pre.length + 1) ∉ st.warnings)
    (hcomment : ¬ ((S "%%") <+: line)) :
    (VMsg.multipleArrows (pre.length + 1) ∈
      (FlowchartValidator.validateFlowchartSyntax (pre ++ line :: post) st).1.warnings)
    ↔ countSeq (S "-->") line + countSeq (S "---") line > 1 := by
  unfold FlowchartValidator.validateFlowchartSyntax
  have hmain := vfsGo_multArrows_at pre 1 (false, st) line post
  rw [Nat.add_comm 1 pre.length] at hmain
  rcases hgo : vfsGo 1 (pre ++ line :: post) (false, st) with ⟨hasDecl, st'⟩
  rw [hgo] at hmain
  have hwarn :
      (if hasDecl then st'
        else { st' with errors := st'.errors ++ [VMsg.missingFlowchartDecl] }).warnings
        = st'.warnings := by
    split <;> rfl
  simp only [hwarn]
  rw [hmain]
  simp [hst, hcomment]

/-- C7 amended witness: the line `A --> B --> C` (two `-->` tokens) at
line 2 receives the warning. -/
theorem c7_multiple_arrows_amended_witness :
    VMsg.multipleArrows 2 ∈
      (FlowchartValidator.validateFlowchartSyntax
        [S "flowchart TD", S "A --> B --> C"] {}).1.warnings :=
  (c7_multiple_arrows_amended [S "flowchart TD"] [] (S "A --> B --> C") {}
    (by decide) (by decide)).mpr (by decide)

/-- Whether a style line raises does not depend on the builder
state. -/
theorem parseStyleDefinition_isSome (l : Str) (b : FlowchartBuilder) :
    (FlowchartParser.parseStyleDefinition l b).toOption.isSome
      = (FlowchartParser.parseStyleDefinition l {}).toOption.isSome := by
  unfold FlowchartParser.parseStyleDefinition
  split
  · rcases hp : FlowchartParser.parseStyleParts _ {} with e | st <;>
      simp [hp, Except.toOption, Except.bind, bind]
  · rfl

/-- A line whose (possible) style parse succeeds is processed without
raising, whatever the builder state. -/
theorem parseFlowchartLine_ok (l : Str) (b : FlowchartBuilder)
    (h : ((S "style ") <+: pyStrip l) →
      (FlowchartParser.parseStyleDefinition (pyStrip l) {}).toOption.isSome = true) :
    ∃ b', FlowchartParser.parseFlowchartLine l b = .ok b' := by
  simp only [FlowchartParser.parseFlowchartLine]
  split_ifs with h1 h2 h3 h4 h5 h6
  · exact ⟨b, rfl⟩
  · exact ⟨_, rfl⟩
  · exact ⟨_, rfl⟩
  · have hsome := h (List.isPrefixOf_iff_prefix.mp h4)
    rw [← parseStyleDefinition_isSome (pyStrip l) b] at hsome
    rcases hp : FlowchartParser.parseStyleDefinition (pyStrip l) b with e | b'
    · rw [hp] at hsome; simp [Except.toOption] at hsome
    · exact ⟨b', rfl⟩
  · exact ⟨_, rfl⟩
  · exact ⟨_, rfl⟩
  · exact ⟨b, rfl⟩

/-- The title-block scan only consumes lines from its input. -/
theorem consumeTitleBlock_subset (ls : List Str) :
    ∀ (b : FlowchartBuilder) (x : Str), x ∈ (consumeTitleBlock ls b).1 → x ∈ ls := by
  induction ls with
  | nil => intro b x hx; simp [consumeTitleBlock] at hx
  | cons l rest ih =>
    intro b x hx
    rw [consumeTitleBlock] at hx
    split at hx
    · exact List.mem_cons_of_mem l hx
    · exact List.mem_cons_of_mem l (ih _ x hx)

/-- The parser's line loop succeeds when every line's (possible) style
parse succeeds. -/
theorem parseLinesAux_ok (fuel : Nat) :
    ∀ (ls : List Str) (b : FlowchartBuilder),
      (∀ l ∈ ls, ((S "style ") <+: pyStrip l) →
        (FlowchartParser.parseStyleDefinition (pyStrip l) {}).toOption.isSome = true) →
      ∃ b', parseLinesAux fuel ls b = .ok b' := by
  induction fuel with
  | zero => intro ls b _; exact ⟨b, rfl⟩
  | succ fuel ih =>
    intro ls b h
    cases ls with
    | nil => exact ⟨b, rfl⟩
    | cons l rest =>
      rw [parseLinesAux]
      split_ifs with h1 h2 h3
      · exact ih rest b (fun l' hl' => h l' (List.mem_cons_of_mem l hl'))
      · exact ih _ _ (fun l' hl' =>
          h l' (List.mem_cons_of_mem l (consumeTitleBlock_subset rest b l' hl')))
      · exact ih rest _ (fun l' hl' => h l' (List.mem_cons_of_mem l hl'))
      · rcases parseFlowchartLine_ok l b (h l (List.mem_cons_self l rest)) with ⟨b', hb'⟩
        rw [hb']
        exact ih rest b' (fun l' hl' => h l' (List.mem_cons_of_mem l hl'))

/-- C2 amended: `parse_string` returns a Builder without raising for
every input in which each line that the dispatcher would route to the
style parser has a parseable style (in particular integer
`stroke-width` values); the sole in-parser raise is `int()` in
`_parse_style_definition`. -/
theorem c2_parse_totality_amended (s : Str)
    (h : ∀ l ∈ processedLines s, ((S "style ") <+: pyStrip l) →
      (FlowchartParser.parseStyleDefinition (pyStrip l) {}).toOption.isSome = true) :
    ∃ b, FlowchartParser.parse_string s = .ok b :=
  parseLinesAux_ok ((processedLines s).length + 1) (processedLines s) {} h

/-- C2 amended witness: a document with a well-formed style line
parses to a Builder. -/
theorem c2_parse_totality_amended_witness :
    ∃ b, FlowchartParser.parse_string
      (S "flowchart TD\nA[Start]\nstyle A fill:#f9f,stroke-width:4px") = .ok b :=
  c2_parse_totality_amended
    (S "flowchart TD\nA[Start]\nstyle A fill:#f9f,stroke-width:4px") (by decide)

/-- Token-level facts about the seven arrow values. -/
theorem arrow_facts : ∀ a ∈ arrowList, a.val ≠ []
    ∧ isWordChar (a.val.headD ' ') = false
    ∧ (' ' : Char) ∉ a.val ∧ ('|' : Char) ∉ a.val
    ∧ ('[' : Char) ∉ a.val ∧ ('(' : Char) ∉ a.val ∧ ('{' : Char) ∉ a.val
    ∧ (']' : Char) ∉ a.val ∧ (')' : Char) ∉ a.val ∧ ('}' : Char) ∉ a.val := by
  decide

/-- No arrow token occurs in a rendered node fragment. -/
theorem node_line_arrowfree (id label : Str) (op close : Char)
    (hid : matchesIdPattern id = true)
    (harr : ∀ a ∈ arrowList, containsSeq a.val label = false)
    (hopfree : ∀ a ∈ arrowList, op ∉ a.val)
    (hclosefree : ∀ a ∈ arrowList, close ∉ a.val) :
    ∀ a ∈ arrowList, containsSeq a.val (id ++ op :: (label ++ [close])) = false := by
  intro a ha
  obtain ⟨hne, hhead, -⟩ := arrow_facts a ha
  rw [containsSeq_append_cons a.val hne (hopfree a ha) id (label ++ [close])]
  rw [show label ++ [close] = label ++ close :: [] from rfl,
    containsSeq_append_cons a.val hne (hclosefree a ha) label []]
  rw [contains_all_word_false a.val id hne hhead (matchesId_all_word id hid),
    harr a ha]
  cases a <;> rfl

/-- The rectangle pattern parses a rendered rectangle node. -/
theorem parseNodeDefinition_rect (b : FlowchartBuilder) (id label : Str)
    (hid : matchesIdPattern id = true) (hlabne : label ≠ [])
    (hclose : (']' : Char) ∉ label) :
    FlowchartParser.parseNodeDefinition (id ++ '[' :: (label ++ [']'])) b
      = b.add_node id label .RECTANGLE := by
  unfold FlowchartParser.parseNodeDefinition
  rw [reMatchShape_hit '[' ']' (by decide) id label hid hlabne hclose]

/-- The round pattern parses a rendered round node (the rectangle
pattern having failed). -/
theorem parseNodeDefinition_round (b : FlowchartBuilder) (id label : Str)
    (hid : matchesIdPattern id = true) (hlabne : label ≠ [])
    (hclose : (')' : Char) ∉ label) :
    FlowchartParser.parseNodeDefinition (id ++ '(' :: (label ++ [')'])) b
      = b.add_node id label .ROUND_RECT := by
  unfold FlowchartParser.parseNodeDefinition
  rw [reMatchShape_miss '[' ']' '(' (by decide) (by decide) id hid _,
    reMatchShape_hit '(' ')' (by decide) id label hid hlabne hclose]

/-- The diamond pattern parses a rendered rhombus node (the first two
patterns having failed). -/
theorem parseNodeDefinition_rhombus (b : FlowchartBuilder) (id label : Str)
    (hid : matchesIdPattern id = true) (hlabne : label ≠ [])
    (hclose : ('}' : Char) ∉ label) :
    FlowchartParser.parseNodeDefinition (id ++ '{' :: (label ++ ['}'])) b
      = b.add_node id label .RHOMBUS := by
  unfold FlowchartParser.parseNodeDefinition
  rw [reMatchShape_miss '[' ']' '{' (by decide) (by decide) id hid _,
    reMatchShape_miss '(' ')' '{' (by decide) (by decide) id hid _,
    reMatchShape_hit '{' '}' (by decide) id label hid hlabne hclose]

/-- `add_node` with an already-valid id and the node's own data
reinserts exactly that (undecorated) node. -/
theorem add_node_render (b : FlowchartBuilder) (n : FlowchartNode)
    (hid : matchesIdPattern n.node_id = true)
    (hst : n.style = none) (hcc : n.css_class = none)
    (hca : n.click_action = none) (hhl : n.href_link = none) :
    b.add_node n.node_id n.label n.shape
      = { b with nodes := dictInsert n.node_id n b.nodes } := by
  obtain ⟨id, label, shape, st, cc, ca, hl⟩ := n
  simp only at hid hst hcc hca hhl ⊢
  subst hst hcc hca hhl
  simp [FlowchartBuilder.add_node, FlowchartNode.make, sanitize_id_fix id hid]

/-- A rendered node fragment is already stripped. -/
theorem node_line_stripped (id label : Str) (op close : Char)
    (hid : matchesIdPattern id = true) (hclose : isSpaceChar close = false) :
    pyStrip (id ++ op :: (label ++ [close])) = id ++ op :: (label ++ [close]) := by
  cases id with
  | nil => exact absurd hid (by decide)
  | cons c id' =>
    have hc : isSpaceChar c = false :=
      word_not_space c (matchesId_all_word _ hid c (List.mem_cons_self c id'))
    have hform : (c :: id') ++ op :: (label ++ [close])
        = c :: (id' ++ op :: label) ++ [close] := by simp
    rw [hform, pyStrip_of_ends c (id' ++ op :: label) close hc hclose]

/-- `_parse_flowchart_line` on a rendered node fragment dispatches to
the node-definition parser. -/
theorem parseFlowchartLine_node_core (b bres : FlowchartBuilder) (id label : Str)
    (op close : Char) (hid : matchesIdPattern id = true)
    (hopw : isWordChar op = false)
    (hopmem : op ∈ (['[', '(', '{'] : List Char))
    (hclosesp : isSpaceChar close = false)
    (harrline : ∀ a ∈ arrowList,
      containsSeq a.val (id ++ op :: (label ++ [close])) = false)
    (hnd : FlowchartParser.parseNodeDefinition (id ++ op :: (label ++ [close])) b
      = bres) :
    FlowchartParser.parseFlowchartLine (id ++ op :: (label ++ [close])) b
      = .ok bres := by
  have hstrip := node_line_stripped id label op close hid hclosesp
  have hne : id ++ op :: (label ++ [close]) ≠ [] := by
    cases id with
    | nil => exact absurd hid (by decide)
    | cons c id' => simp
  have hcomment : (S "%%").isPrefixOf (id ++ op :: (label ++ [close])) = false := by
    cases id with
    | nil => exact absurd hid (by decide)
    | cons c id' =>
      rw [Bool.eq_false_iff]
      intro hp
      rw [List.isPrefixOf_iff_prefix] at hp
      have hc : c = '%' := (List.cons_prefix_cons.mp hp).1.symm
      have := matchesId_all_word _ hid c (List.mem_cons_self c id')
      rw [hc] at this
      exact absurd this (by decide)
  have hany : (arrowList.any fun a =>
      containsSeq a.val (id ++ op :: (label ++ [close]))) = false := by
    rw [Bool.eq_false_iff]
    intro hany
    rcases List.any_eq_true.mp hany with ⟨a, hmem, hca⟩
    rw [harrline a hmem] at hca
    exact absurd hca (by simp)
  have hbracket : ((['[', '(', '{', '>'] : List Char).any fun c =>
      (id ++ op :: (label ++ [close])).contains c) = true := by
    refine List.any_eq_true.mpr ⟨op, ?_, ?_⟩
    · rcases List.mem_cons.mp hopmem with rfl | h
      · decide
      · rcases List.mem_cons.mp h with rfl | h'
        · decide
        · rcases List.mem_cons.mp h' with rfl | h''
          · decide
          · simp at h''
    · have : op ∈ id ++ op :: (label ++ [close]) :=
        List.mem_append.mpr (Or.inr (List.mem_cons_self _ _))
      simp [this]
  simp only [FlowchartParser.parseFlowchartLine, hstrip]
  rw [if_neg (by simp [hne, hcomment]), if_neg (by simp [hany]),
    if_pos hbracket, hnd]

/-- Unlabeled connection rendering, in cons-normal form. -/
theorem conn_render_none (f t : Str) (a : ArrowType) :
    FlowchartConnection.to_mermaid ⟨f, t, a, none⟩
      = f ++ ' ' :: (a.val ++ ' ' :: t) := by
  have h1 : S " " = [' '] := rfl
  simp [FlowchartConnection.to_mermaid, strTruthy, h1, List.append_assoc]

/-- Labeled connection rendering, in cons-normal form. -/
theorem conn_render_some (f t L : Str) (a : ArrowType) (hL : L ≠ []) :
    FlowchartConnection.to_mermaid ⟨f, t, a, some L⟩
      = f ++ ' ' :: (a.val ++ ' ' :: ('|' :: (L ++ '|' :: (' ' :: t)))) := by
  have h1 : S " " = [' '] := rfl
  have h2 : S " |" = [' ', '|'] := rfl
  have h3 : S "| " = ['|', ' '] := rfl
  simp [FlowchartConnection.to_mermaid, strTruthy, hL, h1, h2, h3,
    List.append_assoc]

/-- A token absent from the endpoint, the arrow value and the tail is
absent from the whole rendered connection line. -/
theorem conn_line_free (tok avval tail f : Str) (htokne : tok ≠ [])
    (hsp : (' ' : Char) ∉ tok)
    (hf : containsSeq tok f = false) (hav : containsSeq tok avval = false)
    (htail : containsSeq tok tail = false) :
    containsSeq tok (f ++ ' ' :: (avval ++ ' ' :: tail)) = false := by
  rw [containsSeq_append_cons tok htokne hsp f _,
    containsSeq_append_cons tok htokne hsp avval tail, hf, hav, htail]
  rfl

/-- A token with no space or pipe is absent from a rendered
`|label| to` tail. -/
theorem tail_free_some (tok L t : Str) (htokne : tok ≠ [])
    (hsp : (' ' : Char) ∉ tok) (hpipe : ('|' : Char) ∉ tok)
    (hL : containsSeq tok L = false) (ht : containsSeq tok t = false) :
    containsSeq tok ('|' :: (L ++ '|' :: (' ' :: t))) = false := by
  rw [containsSeq_cons_skip tok htokne hpipe,
    containsSeq_append_cons tok htokne hpipe L _,
    containsSeq_cons_skip tok htokne hsp, hL, ht]
  rfl

/-- The rendered arrow occurs in its own connection line. -/
theorem conn_line_contains_self (f Z : Str) (a : ArrowType) :
    containsSeq a.val (f ++ ' ' :: (a.val ++ Z)) = true := by
  have hne : a.val ≠ [] := (arrow_facts a (by cases a <;> decide)).1
  exact containsSeq_append_right _ f _
    (containsSeq_cons_of_tail _ ' ' _ (containsSeq_self_append a.val Z hne))

/-- Skipping one absent arrow in `_parse_connection`'s loop. -/
theorem parseConnectionGo_skip (line : Str) (b : FlowchartBuilder) (a : ArrowType)
    (rest : List ArrowType) (h : containsSeq a.val line = false) :
    FlowchartParser.parseConnectionGo line b (a :: rest)
      = FlowchartParser.parseConnectionGo line b rest := by
  rw [FlowchartParser.parseConnectionGo, if_neg (by simp [h])]

/-- Skipping a block of absent arrows. -/
theorem parseConnectionGo_skips (line : Str) (b : FlowchartBuilder) :
    ∀ (pre rest : List ArrowType), (∀ a' ∈ pre, containsSeq a'.val line = false) →
      FlowchartParser.parseConnectionGo line b (pre ++ rest)
        = FlowchartParser.parseConnectionGo line b rest := by
  intro pre
  induction pre with
  | nil => intro rest _; rfl
  | cons a pre' ih =>
    intro rest h
    rw [List.cons_append,
      parseConnectionGo_skip _ b a _ (h a (List.mem_cons_self a pre')),
      ih rest (fun a' ha' => h a' (List.mem_cons_of_mem a ha'))]

/-- The hit step of `_parse_connection`'s loop, with the two split
parts explicit. -/
theorem parseConnectionGo_hit (line p0 p1 : Str) (b : FlowchartBuilder)
    (a : ArrowType) (rest : List ArrowType)
    (hcont : containsSeq a.val line = true)
    (hsplit : splitOnSeq a.val line = [p0, p1]) :
    FlowchartParser.parseConnectionGo line b (a :: rest)
      = (if (pyStrip p1).contains '|' then
          match reSearchPipe line with
          | some lab =>
            b.connect (pyStrip p0) (pyStrip (reSubPipe (pyStrip p1))) a
              (some (pyStrip lab))
          | none => b.connect (pyStrip p0) (pyStrip p1) a none
        else b.connect (pyStrip p0) (pyStrip p1) a none) := by
  rw [FlowchartParser.parseConnectionGo, if_pos hcont, hsplit]

/-- Evaluating the hit branch for an unlabeled connection. -/
theorem conn_eval_none (b : FlowchartBuilder) (f t : Str) (a : ArrowType)
    (rest : List ArrowType)
    (hf : pyStrip f = f) (hfne : f ≠ [])
    (ht : pyStrip t = t) (htp : ('|' : Char) ∉ t)
    (hcont : containsSeq a.val (f ++ ' ' :: (a.val ++ ' ' :: t)) = true)
    (hsplit : splitOnSeq a.val (f ++ ' ' :: (a.val ++ ' ' :: t))
      = [f ++ [' '], ' ' :: t]) :
    FlowchartParser.parseConnectionGo (f ++ ' ' :: (a.val ++ ' ' :: t)) b (a :: rest)
      = b.connect f t a none := by
  rw [parseConnectionGo_hit _ _ _ b a rest hcont hsplit,
    pyStrip_append_space f hf hfne, pyStrip_cons_space, ht]
  rw [if_neg (by simp [htp])]

/-- Evaluating the hit branch for a labeled connection. -/
theorem conn_eval_some (b : FlowchartBuilder) (f t L : Str) (a : ArrowType)
    (rest : List ArrowType)
    (hf : pyStrip f = f) (hfne : f ≠ []) (hfp : ('|' : Char) ∉ f)
    (ht : pyStrip t = t) (htne : t ≠ []) (htp : ('|' : Char) ∉ t)
    (hLs : pyStrip L = L) (hLne : L ≠ []) (hLp : ('|' : Char) ∉ L)
    (hcont : containsSeq a.val
      (f ++ ' ' :: (a.val ++ ' ' :: ('|' :: (L ++ '|' :: (' ' :: t))))) = true)
    (hsplit : splitOnSeq a.val
      (f ++ ' ' :: (a.val ++ ' ' :: ('|' :: (L ++ '|' :: (' ' :: t)))))
      = [f ++ [' '], ' ' :: ('|' :: (L ++ '|' :: (' ' :: t)))]) :
    FlowchartParser.parseConnectionGo
      (f ++ ' ' :: (a.val ++ ' ' :: ('|' :: (L ++ '|' :: (' ' :: t))))) b (a :: rest)
      = b.connect f t a (some L) := by
  obtain ⟨T₀, d, htd, hd⟩ :=
    rstrip_fixed_last t (strip_fixed_parts t ht).2 htne
  have htform : '|' :: (L ++ '|' :: (' ' :: t))
      = '|' :: (L ++ '|' :: ' ' :: T₀) ++ [d] := by
    rw [htd]; simp
  have htpart : pyStrip ('|' :: (L ++ '|' :: (' ' :: t)))
      = '|' :: (L ++ '|' :: (' ' :: t)) := by
    rw [htform, pyStrip_of_ends '|' _ d (by decide) hd]
  have hsearch : reSearchPipe
      (f ++ ' ' :: (a.val ++ ' ' :: ('|' :: (L ++ '|' :: (' ' :: t)))))
      = some L := by
    have hXform : f ++ ' ' :: (a.val ++ ' ' :: ('|' :: (L ++ '|' :: (' ' :: t))))
        = (f ++ ' ' :: (a.val ++ [' '])) ++ ('|' :: (L ++ '|' :: (' ' :: t))) := by
      simp
    have hXfree : ('|' : Char) ∉ f ++ ' ' :: (a.val ++ [' ']) := by
      intro hm
      rcases List.mem_append.mp hm with h | h
      · exact hfp h
      · rcases List.mem_cons.mp h with h' | h'
        · exact absurd h'.symm (by decide)
        · rcases List.mem_append.mp h' with h'' | h''
          · exact absurd h'' ((arrow_facts a (by cases a <;> decide)).2.2.2.1)
          · rcases List.mem_cons.mp h'' with h3 | h3
            · exact absurd h3.symm (by decide)
            · simp at h3
    rw [hXform, reSearchPipe_append _ _ hXfree,
      reSearchPipe_found L (' ' :: t) hLp hLne]
  rw [parseConnectionGo_hit _ _ _ b a rest hcont hsplit,
    pyStrip_append_space f hf hfne, pyStrip_cons_space, htpart]
  rw [if_pos (by simp), hsearch, reSubPipe_strip_label L t hLp hLne htp,
    pyStrip_cons_space, ht]
  show FlowchartBuilder.connect b f t a (some (pyStrip L))
      = FlowchartBuilder.connect b f t a (some L)
  rw [hLs]

/-- Unpacking the endpoint conditions. -/
theorem endpointOk_parts (f : Str) (h : endpointOk f = true) :
    f ≠ [] ∧ pyStrip f = f ∧ ('|' : Char) ∉ f ∧ ('\n' : Char) ∉ f
      ∧ ∀ a ∈ arrowList, containsSeq a.val f = false := by
  unfold endpointOk arrowFree at h
  simp only [Bool.and_eq_true, beq_iff_eq, Bool.not_eq_true',
    decide_eq_true_eq, List.all_eq_true, Bool.not_eq_eq_eq_not, Bool.not_true,
    ne_eq] at h
  refine ⟨h.1.1.1.1, h.1.1.1.2, by simpa using h.1.2,
    by simpa using h.1.1.2, fun a ha => ?_⟩
  have := h.2 a ha
  simpa using this

/-- If every arrow token absent from the first hit's own token is absent
from the line, the loop over all arrows reduces to the loop started at
the hit. -/
theorem parseConnectionGo_dispatch (line : Str) (b RES : FlowchartBuilder)
    (a : ArrowType)
    (hfree : ∀ a' ∈ arrowList, containsSeq a'.val a.val = false →
      containsSeq a'.val line = false)
    (heval : ∀ rest, FlowchartParser.parseConnectionGo line b (a :: rest) = RES) :
    FlowchartParser.parseConnectionGo line b arrowList = RES := by
  cases a with
  | ARROW => exact heval _
  | OPEN =>
    show FlowchartParser.parseConnectionGo line b
      (.ARROW :: [.OPEN, .DOTTED_ARROW, .DOTTED_OPEN, .THICK_ARROW,
        .THICK_OPEN, .INVISIBLE]) = RES
    rw [parseConnectionGo_skip line b _ _ (hfree .ARROW (by decide) (by decide))]
    exact heval _
  | DOTTED_ARROW =>
    show FlowchartParser.parseConnectionGo line b
      (.ARROW :: .OPEN :: [.DOTTED_ARROW, .DOTTED_OPEN, .THICK_ARROW,
        .THICK_OPEN, .INVISIBLE]) = RES
    rw [parseConnectionGo_skip line b _ _ (hfree .ARROW (by decide) (by decide)),
      parseConnectionGo_skip line b _ _ (hfree .OPEN (by decide) (by decide))]
    exact heval _
  | DOTTED_OPEN =>
    show FlowchartParser.parseConnectionGo line b
      (.ARROW :: .OPEN :: .DOTTED_ARROW :: [.DOTTED_OPEN, .THICK_ARROW,
        .THICK_OPEN, .INVISIBLE]) = RES
    rw [parseConnectionGo_skip line b _ _ (hfree .ARROW (by decide) (by decide)),
      parseConnectionGo_skip line b _ _ (hfree .OPEN (by decide) (by decide)),
      parseConnectionGo_skip line b _ _
        (hfree .DOTTED_ARROW (by decide) (by decide))]
    exact heval _
  | THICK_ARROW =>
    show FlowchartParser.parseConnectionGo line b
      (.ARROW :: .OPEN :: .DOTTED_ARROW :: .DOTTED_OPEN :: [.THICK_ARROW,
        .THICK_OPEN, .INVISIBLE]) = RES
    rw [parseConnectionGo_skip line b _ _ (hfree .ARROW (by decide) (by decide)),
      parseConnectionGo_skip line b _ _ (hfree .OPEN (by decide) (by decide)),
      parseConnectionGo_skip line b _ _
        (hfree .DOTTED_ARROW (by decide) (by decide)),
      parseConnectionGo_skip line b _ _
        (hfree .DOTTED_OPEN (by decide) (by decide))]
    exact heval _
  | THICK_OPEN =>
    show FlowchartParser.parseConnectionGo line b
      (.ARROW :: .OPEN :: .DOTTED_ARROW :: .DOTTED_OPEN :: .THICK_ARROW ::
        [.THICK_OPEN, .INVISIBLE]) = RES
    rw [parseConnectionGo_skip line b _ _ (hfree .ARROW (by decide) (by decide)),
      parseConnectionGo_skip line b _ _ (hfree .OPEN (by decide) (by decide)),
      parseConnectionGo_skip line b _ _
        (hfree .DOTTED_ARROW (by decide) (by decide)),
      parseConnectionGo_skip line b _ _
        (hfree .DOTTED_OPEN (by decide) (by decide)),
      parseConnectionGo_skip line b _ _
        (hfree .THICK_ARROW (by decide) (by decide))]
    exact heval _
  | INVISIBLE =>
    show FlowchartParser.parseConnectionGo line b
      (.ARROW :: .OPEN :: .DOTTED_ARROW :: .DOTTED_OPEN :: .THICK_ARROW ::
        .THICK_OPEN :: [.INVISIBLE]) = RES
    rw [parseConnectionGo_skip line b _ _ (hfree .ARROW (by decide) (by decide)),
      parseConnectionGo_skip line b _ _ (hfree .OPEN (by decide) (by decide)),
      parseConnectionGo_skip line b _ _
        (hfree .DOTTED_ARROW (by decide) (by decide)),
      parseConnectionGo_skip line b _ _
        (hfree .DOTTED_OPEN (by decide) (by decide)),
      parseConnectionGo_skip line b _ _
        (hfree .THICK_ARROW (by decide) (by decide)),
      parseConnectionGo_skip line b _ _
        (hfree .THICK_OPEN (by decide) (by decide))]
    exact heval _

/-- `_parse_connection` on a rendered well-behaved connection recovers
exactly that connection. -/
theorem parseConnection_render (b : FlowchartBuilder) (c : FlowchartConnection)
    (hc : connOk c = true) :
    FlowchartParser.parseConnection c.to_mermaid b
      = b.connect c.from_node c.to_node c.arrow_type c.label := by
  obtain ⟨f, t, a, lab⟩ := c
  simp only [connOk, Bool.and_eq_true] at hc
  obtain ⟨⟨⟨⟨⟨hfo, hto⟩, -⟩, -⟩, -⟩, hlab⟩ := hc
  obtain ⟨hfne, hfs, hfp, -, hfarr⟩ := endpointOk_parts f hfo
  obtain ⟨htne, hts, htp, -, htarr⟩ := endpointOk_parts t hto
  have amem : a ∈ arrowList := by cases a <;> decide
  have ane : a.val ≠ [] := (arrow_facts a amem).1
  have asp : (' ' : Char) ∉ a.val := (arrow_facts a amem).2.2.1
  cases lab with
  | none =>
    rw [conn_render_none f t a]
    show FlowchartParser.parseConnectionGo
      (f ++ ' ' :: (a.val ++ ' ' :: t)) b arrowList = _
    refine parseConnectionGo_dispatch _ b _ a (fun a' ha' hav => ?_)
      (fun rest => conn_eval_none b f t a rest hfs hfne hts htp
        (conn_line_contains_self f (' ' :: t) a)
        (splitOnSeq_conn a.val ane asp f (' ' :: t) (hfarr a amem) (by
          rw [containsSeq_cons_skip a.val ane asp]
          exact htarr a amem)))
    exact conn_line_free a'.val a.val t f (arrow_facts a' ha').1
      (arrow_facts a' ha').2.2.1 (hfarr a' ha') hav (htarr a' ha')
  | some L =>
    simp only [beq_iff_eq, Bool.and_eq_true, Bool.not_eq_true',
      decide_eq_true_eq, ne_eq] at hlab
    obtain ⟨⟨⟨⟨hLne, hLs⟩, -⟩, hLpc⟩, hLaf⟩ := hlab
    have hLp : ('|' : Char) ∉ L := by simpa using hLpc
    have hLarr : ∀ a' ∈ arrowList, containsSeq a'.val L = false := by
      intro a' ha'
      unfold arrowFree at hLaf
      rw [List.all_eq_true] at hLaf
      have := hLaf a' ha'
      simpa using this
    have htail : ∀ a' ∈ arrowList,
        containsSeq a'.val ('|' :: (L ++ '|' :: (' ' :: t))) = false := by
      intro a' ha'
      exact tail_free_some a'.val L t (arrow_facts a' ha').1
        (arrow_facts a' ha').2.2.1 (arrow_facts a' ha').2.2.2.1
        (hLarr a' ha') (htarr a' ha')
    rw [conn_render_some f t L a hLne]
    show FlowchartParser.parseConnectionGo
      (f ++ ' ' :: (a.val ++ ' ' :: ('|' :: (L ++ '|' :: (' ' :: t)))))
      b arrowList = _
    refine parseConnectionGo_dispatch _ b _ a (fun a' ha' hav => ?_)
      (fun rest => conn_eval_some b f t L a rest hfs hfne hfp hts htne htp
        hLs hLne hLp
        (conn_line_contains_self f (' ' :: ('|' :: (L ++ '|' :: (' ' :: t)))) a)
        (splitOnSeq_conn a.val ane asp f
          (' ' :: ('|' :: (L ++ '|' :: (' ' :: t)))) (hfarr a amem) (by
          rw [containsSeq_cons_skip a.val ane asp]
          exact htail a amem)))
    exact conn_line_free a'.val a.val ('|' :: (L ++ '|' :: (' ' :: t))) f
      (arrow_facts a' ha').1 (arrow_facts a' ha').2.2.1 (hfarr a' ha') hav
      (htail a' ha')

/-- A left-strip-fixed nonempty string starts with a non-space
character. -/
theorem lstrip_fixed_head (T : Str) (h : pyLStrip T = T) (hne : T ≠ []) :
    ∃ c T₀, T = c :: T₀ ∧ isSpaceChar c = false := by
  cases T with
  | nil => exact absurd rfl hne
  | cons c T₀ =>
    refine ⟨c, T₀, rfl, ?_⟩
    by_contra hb
    rw [Bool.not_eq_false] at hb
    rw [pyLStrip, List.dropWhile_cons, if_pos hb] at h
    have h1 : (T₀.dropWhile isSpaceChar).length ≤ T₀.length :=
      List.IsSuffix.length_le (List.dropWhile_suffix _)
    have h2 := congrArg List.length h
    simp at h2
    omega

/-- A string with a non-space head and a non-space last character is
strip-fixed. -/
theorem strip_fixed_of_ends (X : Str)
    (hhead : ∃ c X₀, X = c :: X₀ ∧ isSpaceChar c = false)
    (hlast : ∃ X₀ d, X = X₀ ++ [d] ∧ isSpaceChar d = false) :
    pyStrip X = X := by
  obtain ⟨c, X₀, rfl, hc⟩ := hhead
  obtain ⟨Y₀, d, hY, hd⟩ := hlast
  cases Y₀ with
  | nil =>
    simp only [List.nil_append, List.cons.injEq] at hY
    obtain ⟨rfl, rfl⟩ := hY
    exact pyStrip_singleton c hc
  | cons y Y' =>
    rw [List.cons_append, List.cons.injEq] at hY
    obtain ⟨rfl, rfl⟩ := hY
    exact pyStrip_of_ends c Y' d hc hd

/-- A rendered connection line is already stripped. -/
theorem conn_line_stripped (f tail av : Str)
    (hf : pyStrip f = f) (hfne : f ≠ [])
    (hlast : ∃ T₀ d, tail = T₀ ++ [d] ∧ isSpaceChar d = false) :
    pyStrip (f ++ ' ' :: (av ++ ' ' :: tail))
      = f ++ ' ' :: (av ++ ' ' :: tail) := by
  apply strip_fixed_of_ends
  · obtain ⟨c, F₀, rfl, hc⟩ :=
      lstrip_fixed_head f (strip_fixed_parts f hf).1 hfne
    exact ⟨c, F₀ ++ ' ' :: (av ++ ' ' :: tail), by simp, hc⟩
  · obtain ⟨T₀, d, rfl, hd⟩ := hlast
    exact ⟨f ++ ' ' :: (av ++ ' ' :: T₀), d, by simp, hd⟩

/-- `_parse_flowchart_line` on a rendered well-behaved connection line
dispatches to the connection parser and recovers the connection. -/
theorem parseFlowchartLine_conn (b : FlowchartBuilder) (c : FlowchartConnection)
    (hc : connOk c = true) :
    FlowchartParser.parseFlowchartLine c.to_mermaid b
      = .ok (b.connect c.from_node c.to_node c.arrow_type c.label) := by
  have hrender := parseConnection_render b c hc
  obtain ⟨f, t, a, lab⟩ := c
  simp only [connOk, Bool.and_eq_true, Bool.not_eq_true'] at hc
  obtain ⟨⟨⟨⟨⟨hfo, hto⟩, hpc⟩, -⟩, -⟩, hlab⟩ := hc
  obtain ⟨hfne, hfs, hfp, -, hfarr⟩ := endpointOk_parts f hfo
  obtain ⟨htne, hts, htp, -, htarr⟩ := endpointOk_parts t hto
  have amem : a ∈ arrowList := by cases a <;> decide
  have htail : ∃ tail, FlowchartConnection.to_mermaid ⟨f, t, a, lab⟩
      = f ++ ' ' :: (a.val ++ ' ' :: tail)
      ∧ ∃ T₀ d, tail = T₀ ++ [d] ∧ isSpaceChar d = false := by
    obtain ⟨T₀, d, htd, hd⟩ :=
      rstrip_fixed_last t (strip_fixed_parts t hts).2 htne
    cases lab with
    | none => exact ⟨t, conn_render_none f t a, T₀, d, htd, hd⟩
    | some L =>
      have hLne : L ≠ [] := by
        simp only [Bool.and_eq_true, decide_eq_true_eq, ne_eq] at hlab
        exact hlab.1.1.1.1
      exact ⟨'|' :: (L ++ '|' :: (' ' :: t)), conn_render_some f t L a hLne,
        '|' :: (L ++ '|' :: (' ' :: T₀)), d, by rw [htd]; simp, hd⟩
  obtain ⟨tail, hTm, hlastE⟩ := htail
  rw [hTm] at hrender ⊢
  have hstrip : pyStrip (f ++ ' ' :: (a.val ++ ' ' :: tail))
      = f ++ ' ' :: (a.val ++ ' ' :: tail) :=
    conn_line_stripped f tail a.val hfs hfne hlastE
  have hne : f ++ ' ' :: (a.val ++ ' ' :: tail) ≠ [] := by
    cases f with
    | nil => exact absurd rfl hfne
    | cons x f' => simp
  have hcomment : ((S "%%").isPrefixOf (f ++ ' ' :: (a.val ++ ' ' :: tail)))
      = false := by
    rw [Bool.eq_false_iff]
    intro hp
    rw [List.isPrefixOf_iff_prefix] at hp
    refine no_prefix_connline (S "%%") f _ ?_ ?_ hp
    · intro hpf
      exact absurd (List.isPrefixOf_iff_prefix.mpr hpf) (by rw [hpc]; decide)
    · intro k hk hh
      have hk2 : k < 2 := by simpa [S] using hk
      interval_cases k <;> exact absurd hh (by decide)
  have hany : (arrowList.any fun a' =>
      containsSeq a'.val (f ++ ' ' :: (a.val ++ ' ' :: tail))) = true :=
    List.any_eq_true.mpr ⟨a, amem, conn_line_contains_self f (' ' :: tail) a⟩
  simp only [FlowchartParser.parseFlowchartLine, hstrip]
  rw [if_neg (by simp [hne, hcomment]), if_pos hany, hrender]

/-- The title-block scan consumes at least the closing line. -/
theorem consumeTitleBlock_length : ∀ (ls : List Str) (b : FlowchartBuilder),
    (consumeTitleBlock ls b).1.length ≤ ls.length := by
  intro ls
  induction ls with
  | nil => intro b; simp [consumeTitleBlock]
  | cons l rest ih =>
    intro b
    unfold consumeTitleBlock
    by_cases h : l = S "---"
    · rw [if_pos h]
      simp
    · rw [if_neg h]
      exact le_trans (ih _) (by simp)

/-- The fuel on the line loop is irrelevant once it exceeds the number
of lines. -/
theorem parseLinesAux_fuel : ∀ (fuel fuel' : Nat) (ls : List Str)
    (b : FlowchartBuilder), ls.length < fuel → ls.length < fuel' →
    parseLinesAux fuel ls b = parseLinesAux fuel' ls b := by
  intro fuel
  induction fuel with
  | zero => intro fuel' ls b h _; exact absurd h (by omega)
  | succ m ih =>
    intro fuel' ls b h h'
    cases fuel' with
    | zero => exact absurd h' (by omega)
    | succ k =>
      cases ls with
      | nil => rfl
      | cons l rest =>
        simp only [List.length_cons] at h h'
        have hlen := consumeTitleBlock_length rest b
        unfold parseLinesAux
        split_ifs with h1 h2 h3
        · exact ih k rest b (by omega) (by omega)
        · exact ih k _ _ (by omega) (by omega)
        · exact ih k rest _ (by omega) (by omega)
        · cases hpl : FlowchartParser.parseFlowchartLine l b with
          | ok b' => exact ih k rest b' (by omega) (by omega)
          | error e => rfl

/-- One ordinary line of the loop: dispatch and continue. -/
theorem parseLines_cons_line (l : Str) (ls : List Str) (b b' : FlowchartBuilder)
    (h1 : (S "%%").isPrefixOf l = false) (h2 : l ≠ S "---")
    (h3 : (S "flowchart ").isPrefixOf l = false)
    (hl : FlowchartParser.parseFlowchartLine l b = .ok b') :
    parseLines (l :: ls) b = parseLines ls b' := by
  show parseLinesAux (ls.length + 1 + 1) (l :: ls) b = _
  unfold parseLinesAux
  rw [if_neg (by simp [h1]), if_neg h2, if_neg (by simp [h3]), hl]
  rfl

/-- One `flowchart ` line of the loop: set the direction and
continue. -/
theorem parseLines_cons_flow (l : Str) (ls : List Str) (b : FlowchartBuilder)
    (h1 : (S "%%").isPrefixOf l = false) (h2 : l ≠ S "---")
    (h3 : (S "flowchart ").isPrefixOf l = true) :
    parseLines (l :: ls) b = parseLines ls
      (match Direction.ofVal (pyStrip (l.drop 10)) with
       | some d => b.set_direction d
       | none => b) := by
  show parseLinesAux (ls.length + 1 + 1) (l :: ls) b = _
  unfold parseLinesAux
  rw [if_neg (by simp [h1]), if_neg h2, if_pos h3]
  rfl

/-- A rendered `flowchart {direction}` line sets exactly that
direction. -/
theorem parseLines_flowdir (d : Direction) (ls : List Str) (b : FlowchartBuilder) :
    parseLines ((S "flowchart " ++ d.val) :: ls) b
      = parseLines ls (b.set_direction d) := by
  cases d <;>
  · rw [parseLines_cons_flow _ ls b (by decide) (by decide) (by decide)]
    rfl

/-- A rendered title block records the stripped title and continues
after the closing `---`. -/
theorem parseLines_title (t : Str) (ls : List Str) (b : FlowchartBuilder) :
    parseLines (S "---" :: (S "title: " ++ t) :: S "---" :: ls) b
      = parseLines ls { b with title := some (pyStrip t) } := by
  show parseLinesAux (ls.length + 3 + 1) _ b = _
  unfold parseLinesAux
  rw [if_neg (by decide), if_pos rfl]
  have hpre : (S "title:").isPrefixOf (S "title: " ++ t) = true :=
    List.isPrefixOf_iff_prefix.mpr ⟨' ' :: t, rfl⟩
  have hct : consumeTitleBlock ((S "title: " ++ t) :: S "---" :: ls) b
      = (ls, { b with title := some (pyStrip t) }) := by
    unfold consumeTitleBlock
    rw [if_neg (by
      intro he
      have : 'i' ∈ S "---" := by
        rw [← he]
        show 'i' ∈ 't' :: 'i' :: (S "tle: " ++ t)
        exact List.mem_cons_of_mem _ (List.mem_cons_self _ _)
      simp [S] at this), if_pos hpre]
    unfold consumeTitleBlock
    rw [if_pos rfl]
    have hdrop : (S "title: " ++ t).drop 6 = ' ' :: t := rfl
    rw [hdrop, pyStrip_cons_space]
  rw [hct]
  exact parseLinesAux_fuel _ _ ls _ (by omega) (by omega)

/-- A rendered node fragment is not a comment, not a `---` fence and
not a `flowchart ` line. -/
theorem node_line_guards (id : Str) (op : Char) (R : Str)
    (hid : matchesIdPattern id = true)
    (hop : op ∈ (['[', '(', '{'] : List Char)) :
    (S "%%").isPrefixOf (id ++ op :: R) = false
    ∧ id ++ op :: R ≠ S "---"
    ∧ (S "flowchart ").isPrefixOf (id ++ op :: R) = false := by
  have hop1 : op ∉ S "%%" := by fin_cases hop <;> decide
  have hop2 : op ∉ S "---" := by fin_cases hop <;> decide
  have hop3 : op ∉ S "flowchart " := by fin_cases hop <;> decide
  refine ⟨?_, ?_, ?_⟩
  · rw [Bool.eq_false_iff]
    intro hp
    exact no_prefix_wordid (S "%%") id hid ⟨'%', by decide, by decide⟩ op hop1 R
      (List.isPrefixOf_iff_prefix.mp hp)
  · intro he
    refine no_prefix_wordid (S "---") id hid ⟨'-', by decide, by decide⟩ op hop2 R ?_
    rw [he]
  · rw [Bool.eq_false_iff]
    intro hp
    exact no_prefix_wordid (S "flowchart ") id hid ⟨' ', by decide, by decide⟩
      op hop3 R (List.isPrefixOf_iff_prefix.mp hp)

/-- A rendered connection line is not a comment, not a `---` fence and
not a `flowchart ` line. -/
theorem conn_line_guards (f R : Str)
    (hnpc : (S "%%").isPrefixOf f = false)
    (hnfl : f ≠ S "flowchart")
    (hnflp : (S "flowchart ").isPrefixOf f = false) :
    (S "%%").isPrefixOf (f ++ ' ' :: R) = false
    ∧ f ++ ' ' :: R ≠ S "---"
    ∧ (S "flowchart ").isPrefixOf (f ++ ' ' :: R) = false := by
  refine ⟨?_, ?_, ?_⟩
  · rw [Bool.eq_false_iff]
    intro hp
    refine no_prefix_connline (S "%%") f R ?_ ?_
      (List.isPrefixOf_iff_prefix.mp hp)
    · intro hpf
      exact absurd (List.isPrefixOf_iff_prefix.mpr hpf) (by rw [hnpc]; decide)
    · intro k hk hh
      have hk2 : k < 2 := by simpa [S] using hk
      interval_cases k <;> exact absurd hh (by decide)
  · intro he
    have : (' ' : Char) ∈ S "---" := by
      rw [← he]
      exact List.mem_append.mpr (Or.inr (List.mem_cons_self _ _))
    simp [S] at this
  · rw [Bool.eq_false_iff]
    intro hp
    refine no_prefix_connline (S "flowchart ") f R ?_ ?_
      (List.isPrefixOf_iff_prefix.mp hp)
    · intro hpf
      exact absurd (List.isPrefixOf_iff_prefix.mpr hpf) (by rw [hnflp]; decide)
    · intro k hk hh
      have hk2 : k < 10 := by simpa [S] using hk
      interval_cases k
      · exact absurd hh (by decide)
      · exact absurd hh (by decide)
      · exact absurd hh (by decide)
      · exact absurd hh (by decide)
      · exact absurd hh (by decide)
      · exact absurd hh (by decide)
      · exact absurd hh (by decide)
      · exact absurd hh (by decide)
      · exact absurd hh (by decide)
      · exact hnfl

/-- `_parse_flowchart_line` on a rendered well-behaved node fragment
performs exactly the node insertion. -/
theorem parseFlowchartLine_node (b : FlowchartBuilder) (n : FlowchartNode)
    (hid : matchesIdPattern n.node_id = true) (hok : nodeOk n = true) :
    FlowchartParser.parseFlowchartLine n.to_mermaid b
      = .ok { b with nodes := dictInsert n.node_id n b.nodes } := by
  unfold nodeOk at hok
  simp only [Bool.and_eq_true, Bool.not_eq_true', decide_eq_true_eq, ne_eq,
    Option.isNone_iff_eq_none] at hok
  obtain ⟨⟨⟨⟨⟨⟨⟨hshape, hlabne⟩, hnl⟩, harrf⟩, hst⟩, hcc⟩, hca⟩, hhl⟩ := hok
  have harr : ∀ a ∈ arrowList, containsSeq a.val n.label = false := by
    intro a ha
    unfold arrowFree at harrf
    rw [List.all_eq_true] at harrf
    have := harrf a ha
    simpa using this
  have har := add_node_render b n hid hst hcc hca hhl
  cases hsh : n.shape with
  | RECTANGLE =>
    rw [hsh] at hshape har
    simp only [Bool.not_eq_true'] at hshape
    have hclose : (']' : Char) ∉ n.label := by simpa using hshape
    have hTm : n.to_mermaid = n.node_id ++ '[' :: (n.label ++ [']']) := by
      unfold FlowchartNode.to_mermaid
      rw [hsh]
    rw [hTm]
    refine parseFlowchartLine_node_core b _ n.node_id n.label '[' ']' hid
      (by decide) (by decide) (by decide)
      (node_line_arrowfree n.node_id n.label '[' ']' hid harr
        (by decide) (by decide)) ?_
    rw [parseNodeDefinition_rect b n.node_id n.label hid hlabne hclose]
    exact har
  | ROUND_RECT =>
    rw [hsh] at hshape har
    simp only [Bool.not_eq_true'] at hshape
    have hclose : (')' : Char) ∉ n.label := by simpa using hshape
    have hTm : n.to_mermaid = n.node_id ++ '(' :: (n.label ++ [')']) := by
      unfold FlowchartNode.to_mermaid
      rw [hsh]
    rw [hTm]
    refine parseFlowchartLine_node_core b _ n.node_id n.label '(' ')' hid
      (by decide) (by decide) (by decide)
      (node_line_arrowfree n.node_id n.label '(' ')' hid harr
        (by decide) (by decide)) ?_
    rw [parseNodeDefinition_round b n.node_id n.label hid hlabne hclose]
    exact har
  | RHOMBUS =>
    rw [hsh] at hshape har
    simp only [Bool.not_eq_true'] at hshape
    have hclose : ('}' : Char) ∉ n.label := by simpa using hshape
    have hTm : n.to_mermaid = n.node_id ++ '{' :: (n.label ++ ['}']) := by
      unfold FlowchartNode.to_mermaid
      rw [hsh]
    rw [hTm]
    refine parseFlowchartLine_node_core b _ n.node_id n.label '{' '}' hid
      (by decide) (by decide) (by decide)
      (node_line_arrowfree n.node_id n.label '{' '}' hid harr
        (by decide) (by decide)) ?_
    rw [parseNodeDefinition_rhombus b n.node_id n.label hid hlabne hclose]
    exact har
  | STADIUM => rw [hsh] at hshape; simp at hshape
  | SUBROUTINE => rw [hsh] at hshape; simp at hshape
  | CYLINDER => rw [hsh] at hshape; simp at hshape
  | CIRCLE => rw [hsh] at hshape; simp at hshape
  | ASYMMETRIC => rw [hsh] at hshape; simp at hshape
  | HEXAGON => rw [hsh] at hshape; simp at hshape
  | PARALLELOGRAM => rw [hsh] at hshape; simp at hshape
  | PARALLELOGRAM_ALT => rw [hsh] at hshape; simp at hshape
  | TRAPEZOID => rw [hsh] at hshape; simp at hshape
  | TRAPEZOID_ALT => rw [hsh] at hshape; simp at hshape

/-- A well-behaved node's fragment starts with its id and one of the
three opening delimiters. -/
theorem node_line_form (n : FlowchartNode) (hok : nodeOk n = true) :
    ∃ op R, n.to_mermaid = n.node_id ++ op :: R
      ∧ op ∈ (['[', '(', '{'] : List Char) := by
  cases hsh : n.shape with
  | RECTANGLE =>
    exact ⟨'[', n.label ++ [']'],
      by unfold FlowchartNode.to_mermaid; rw [hsh], by decide⟩
  | ROUND_RECT =>
    exact ⟨'(', n.label ++ [')'],
      by unfold FlowchartNode.to_mermaid; rw [hsh], by decide⟩
  | RHOMBUS =>
    exact ⟨'{', n.label ++ ['}'],
      by unfold FlowchartNode.to_mermaid; rw [hsh], by decide⟩
  | STADIUM => unfold nodeOk at hok; rw [hsh] at hok; simp at hok
  | SUBROUTINE => unfold nodeOk at hok; rw [hsh] at hok; simp at hok
  | CYLINDER => unfold nodeOk at hok; rw [hsh] at hok; simp at hok
  | CIRCLE => unfold nodeOk at hok; rw [hsh] at hok; simp at hok
  | ASYMMETRIC => unfold nodeOk at hok; rw [hsh] at hok; simp at hok
  | HEXAGON => unfold nodeOk at hok; rw [hsh] at hok; simp at hok
  | PARALLELOGRAM => unfold nodeOk at hok; rw [hsh] at hok; simp at hok
  | PARALLELOGRAM_ALT => unfold nodeOk at hok; rw [hsh] at hok; simp at hok
  | TRAPEZOID => unfold nodeOk at hok; rw [hsh] at hok; simp at hok
  | TRAPEZOID_ALT => unfold nodeOk at hok; rw [hsh] at hok; simp at hok

/-- The from-endpoint guard facts packed in `connOk`. -/
theorem connOk_from_guards (c : FlowchartConnection) (hc : connOk c = true) :
    (S "%%").isPrefixOf c.from_node = false
    ∧ c.from_node ≠ S "flowchart"
    ∧ (S "flowchart ").isPrefixOf c.from_node = false := by
  unfold connOk at hc
  simp only [Bool.and_eq_true, Bool.not_eq_true', decide_eq_true_eq, ne_eq] at hc
  exact ⟨hc.1.1.1.2, hc.1.1.2, hc.1.2⟩

/-- A well-behaved connection's line starts with its from-endpoint and
a space. -/
theorem conn_line_form (c : FlowchartConnection) (hc : connOk c = true) :
    ∃ R, c.to_mermaid = c.from_node ++ ' ' :: R := by
  obtain ⟨f, t, a, lab⟩ := c
  cases lab with
  | none => exact ⟨a.val ++ ' ' :: t, conn_render_none f t a⟩
  | some L =>
    have hLne : L ≠ [] := by
      unfold connOk at hc
      simp only [Bool.and_eq_true, decide_eq_true_eq, ne_eq] at hc
      exact hc.2.1.1.1.1
    exact ⟨a.val ++ ' ' :: ('|' :: (L ++ '|' :: (' ' :: t))),
      conn_render_some f t L a hLne⟩

/-- Consecutive rendered node fragments insert exactly the rendered
nodes, in order, after the existing ones. -/
theorem parseLines_nodes : ∀ (ps : List (Str × FlowchartNode)) (ls : List Str)
    (b : FlowchartBuilder),
    (∀ p ∈ ps, p.1 = p.2.node_id ∧ matchesIdPattern p.2.node_id = true
      ∧ nodeOk p.2 = true) →
    ((b.nodes ++ ps).map Prod.fst).Nodup →
    parseLines (ps.map (fun p => p.2.to_mermaid) ++ ls) b
      = parseLines ls { b with nodes := b.nodes ++ ps } := by
  intro ps
  induction ps with
  | nil => intro ls b _ _; simp
  | cons p ps' ih =>
    intro ls b hok hnd
    obtain ⟨k, n⟩ := p
    have hkey : k = n.node_id := (hok (k, n) (List.mem_cons_self _ _)).1
    subst hkey
    have hid : matchesIdPattern n.node_id = true :=
      (hok (n.node_id, n) (List.mem_cons_self _ _)).2.1
    have hnok : nodeOk n = true := (hok _ (List.mem_cons_self _ _)).2.2
    have hfresh : n.node_id ∉ b.nodes.map Prod.fst := by
      rw [List.map_append, List.nodup_append] at hnd
      intro hmem
      exact hnd.2.2 hmem
        (by rw [List.map_cons]; exact List.mem_cons_self _ _)
    obtain ⟨op, R, hform, hopmem⟩ := node_line_form n hnok
    obtain ⟨hg1, hg2, hg3⟩ := node_line_guards n.node_id op R hid hopmem
    have hline : FlowchartParser.parseFlowchartLine n.to_mermaid b
        = .ok { b with nodes := b.nodes ++ [(n.node_id, n)] } := by
      rw [parseFlowchartLine_node b n hid hnok, dictInsert_fresh _ _ _ hfresh]
    rw [List.map_cons, List.cons_append,
      parseLines_cons_line _ _ b _ (by rw [hform]; exact hg1)
        (by rw [hform]; exact hg2) (by rw [hform]; exact hg3) hline]
    have hnd' : (((b.nodes ++ [(n.node_id, n)]) ++ ps').map Prod.fst).Nodup := by
      rw [List.append_assoc, List.singleton_append]
      exact hnd
    rw [ih ls _ (fun q hq => hok q (List.mem_cons_of_mem _ hq)) hnd']
    simp [List.append_assoc]

/-- Consecutive rendered connection lines append exactly the rendered
connections, in order. -/
theorem parseLines_conns : ∀ (cs : List FlowchartConnection) (ls : List Str)
    (b : FlowchartBuilder), (∀ c ∈ cs, connOk c = true) →
    parseLines (cs.map FlowchartConnection.to_mermaid ++ ls) b
      = parseLines ls { b with connections := b.connections ++ cs } := by
  intro cs
  induction cs with
  | nil => intro ls b _; simp
  | cons c cs' ih =>
    intro ls b hok
    have hcok := hok c (List.mem_cons_self c cs')
    obtain ⟨hgf1, hgf2, hgf3⟩ := connOk_from_guards c hcok
    obtain ⟨R, hR⟩ := conn_line_form c hcok
    obtain ⟨hg1, hg2, hg3⟩ := conn_line_guards c.from_node R hgf1 hgf2 hgf3
    have hline : FlowchartParser.parseFlowchartLine c.to_mermaid b
        = .ok { b with connections := b.connections ++ [c] } := by
      rw [parseFlowchartLine_conn b c hcok]
      rfl
    rw [List.map_cons, List.cons_append,
      parseLines_cons_line _ _ b _ (by rw [hR]; exact hg1)
        (by rw [hR]; exact hg2) (by rw [hR]; exact hg3) hline,
      ih ls _ (fun q hq => hok q (List.mem_cons_of_mem _ hq))]
    simp [List.append_assoc]

/-- Strip fixpoint, nonemptiness and newline-freeness of a node
fragment. -/
theorem node_frag_props (id label : Str) (op close : Char)
    (hid : matchesIdPattern id = true)
    (hlabnl : ('\n' : Char) ∉ label)
    (hclosesp : isSpaceChar close = false)
    (hopnl : op ≠ '\n') (hclosenl : close ≠ '\n') :
    pyStrip (id ++ op :: (label ++ [close])) = id ++ op :: (label ++ [close])
    ∧ id ++ op :: (label ++ [close]) ≠ []
    ∧ ('\n' : Char) ∉ id ++ op :: (label ++ [close]) := by
  refine ⟨node_line_stripped id label op close hid hclosesp, by simp, ?_⟩
  intro hmem
  have hnid : ('\n' : Char) ∉ id := fun hm =>
    absurd (matchesId_all_word _ hid _ hm) (by decide)
  rcases List.mem_append.mp hmem with h | h
  · exact hnid h
  · rcases List.mem_cons.mp h with h' | h'
    · exact hopnl h'.symm
    · rcases List.mem_append.mp h' with h'' | h''
      · exact hlabnl h''
      · rcases List.mem_cons.mp h'' with h3 | h3
        · exact hclosenl h3.symm
        · simp at h3

/-- Strip fixpoint, nonemptiness and newline-freeness of a rendered
well-behaved node. -/
theorem node_line_props (n : FlowchartNode)
    (hid : matchesIdPattern n.node_id = true) (hok : nodeOk n = true) :
    pyStrip n.to_mermaid = n.to_mermaid ∧ n.to_mermaid ≠ []
      ∧ ('\n' : Char) ∉ n.to_mermaid := by
  have hok0 := hok
  unfold nodeOk at hok
  simp only [Bool.and_eq_true, Bool.not_eq_true', decide_eq_true_eq, ne_eq,
    Option.isNone_iff_eq_none] at hok
  obtain ⟨⟨⟨⟨⟨⟨⟨hshape, hlabne⟩, hnl⟩, harrf⟩, -⟩, -⟩, -⟩, -⟩ := hok
  have hnlab : ('\n' : Char) ∉ n.label := by simpa using hnl
  cases hsh : n.shape with
  | RECTANGLE =>
    have hTm : n.to_mermaid = n.node_id ++ '[' :: (n.label ++ [']']) := by
      unfold FlowchartNode.to_mermaid
      rw [hsh]
    rw [hTm]
    exact node_frag_props _ _ _ _ hid hnlab (by decide) (by decide) (by decide)
  | ROUND_RECT =>
    have hTm : n.to_mermaid = n.node_id ++ '(' :: (n.label ++ [')']) := by
      unfold FlowchartNode.to_mermaid
      rw [hsh]
    rw [hTm]
    exact node_frag_props _ _ _ _ hid hnlab (by decide) (by decide) (by decide)
  | RHOMBUS =>
    have hTm : n.to_mermaid = n.node_id ++ '{' :: (n.label ++ ['}']) := by
      unfold FlowchartNode.to_mermaid
      rw [hsh]
    rw [hTm]
    exact node_frag_props _ _ _ _ hid hnlab (by decide) (by decide) (by decide)
  | STADIUM => rw [hsh] at hshape; simp at hshape
  | SUBROUTINE => rw [hsh] at hshape; simp at hshape
  | CYLINDER => rw [hsh] at hshape; simp at hshape
  | CIRCLE => rw [hsh] at hshape; simp at hshape
  | ASYMMETRIC => rw [hsh] at hshape; simp at hshape
  | HEXAGON => rw [hsh] at hshape; simp at hshape
  | PARALLELOGRAM => rw [hsh] at hshape; simp at hshape
  | PARALLELOGRAM_ALT => rw [hsh] at hshape; simp at hshape
  | TRAPEZOID => rw [hsh] at hshape; simp at hshape
  | TRAPEZOID_ALT => rw [hsh] at hshape; simp at hshape

/-- Newline-freeness of a connection line with a newline-free tail. -/
theorem conn_frag_nl (f tail : Str) (a : ArrowType)
    (hfnl : ('\n' : Char) ∉ f) (htailnl : ('\n' : Char) ∉ tail) :
    ('\n' : Char) ∉ f ++ ' ' :: (a.val ++ ' ' :: tail) := by
  intro hmem
  have hanl : ('\n' : Char) ∉ a.val := by cases a <;> decide
  rcases List.mem_append.mp hmem with h | h
  · exact hfnl h
  · rcases List.mem_cons.mp h with h' | h'
    · exact absurd h' (by decide)
    · rcases List.mem_append.mp h' with h'' | h''
      · exact hanl h''
      · rcases List.mem_cons.mp h'' with h3 | h3
        · exact absurd h3 (by decide)
        · exact htailnl h3

/-- Newline-freeness of a `|label| to` tail. -/
theorem conn_tail_nl (L t : Str) (hLnl : ('\n' : Char) ∉ L)
    (htnl : ('\n' : Char) ∉ t) :
    ('\n' : Char) ∉ '|' :: (L ++ '|' :: (' ' :: t)) := by
  intro hmem
  rcases List.mem_cons.mp hmem with h | h
  · exact absurd h (by decide)
  · rcases List.mem_append.mp h with h' | h'
    · exact hLnl h'
    · rcases List.mem_cons.mp h' with h'' | h''
      · exact absurd h'' (by decide)
      · rcases List.mem_cons.mp h'' with h3 | h3
        · exact absurd h3 (by decide)
        · exact htnl h3

/-- Strip fixpoint, nonemptiness and newline-freeness of a rendered
well-behaved connection. -/
theorem conn_line_props (c : FlowchartConnection) (hc : connOk c = true) :
    pyStrip c.to_mermaid = c.to_mermaid ∧ c.to_mermaid ≠ []
      ∧ ('\n' : Char) ∉ c.to_mermaid := by
  obtain ⟨f, t, a, lab⟩ := c
  simp only [connOk, Bool.and_eq_true, Bool.not_eq_true'] at hc
  obtain ⟨⟨⟨⟨⟨hfo, hto⟩, -⟩, -⟩, -⟩, hlab⟩ := hc
  obtain ⟨hfne, hfs, hfp, hfnl, hfarr⟩ := endpointOk_parts f hfo
  obtain ⟨htne, hts, htp, htnl, htarr⟩ := endpointOk_parts t hto
  obtain ⟨T₀, d, htd, hd⟩ := rstrip_fixed_last t (strip_fixed_parts t hts).2 htne
  cases lab with
  | none =>
    rw [conn_render_none f t a]
    refine ⟨conn_line_stripped f t a.val hfs hfne ⟨T₀, d, htd, hd⟩, ?_, ?_⟩
    · cases f with
      | nil => exact absurd rfl hfne
      | cons x f' => simp
    · exact conn_frag_nl f t a hfnl htnl
  | some L =>
    simp only [beq_iff_eq, Bool.and_eq_true, Bool.not_eq_true',
      decide_eq_true_eq, ne_eq] at hlab
    obtain ⟨⟨⟨⟨hLne, hLs⟩, hLnlc⟩, -⟩, -⟩ := hlab
    have hLnl : ('\n' : Char) ∉ L := by simpa using hLnlc
    rw [conn_render_some f t L a hLne]
    refine ⟨conn_line_stripped f _ a.val hfs hfne
      ⟨'|' :: (L ++ '|' :: (' ' :: T₀)), d, by rw [htd]; simp, hd⟩, ?_, ?_⟩
    · cases f with
      | nil => exact absurd rfl hfne
      | cons x f' => simp
    · exact conn_frag_nl f _ a hfnl (conn_tail_nl L t hLnl htnl)

/-- Strip fixpoint, nonemptiness and newline-freeness of a rendered
title line. -/
theorem title_line_props (t : Str) (hts : pyStrip t = t) (htne : t ≠ [])
    (htnl : ('\n' : Char) ∉ t) :
    pyStrip (S "title: " ++ t) = S "title: " ++ t
    ∧ S "title: " ++ t ≠ []
    ∧ ('\n' : Char) ∉ S "title: " ++ t := by
  obtain ⟨T₀, d, htd, hd⟩ := rstrip_fixed_last t (strip_fixed_parts t hts).2 htne
  refine ⟨?_, ?_, ?_⟩
  · apply strip_fixed_of_ends
    · exact ⟨'t', S "itle: " ++ t, rfl, by decide⟩
    · exact ⟨S "title: " ++ T₀, d, by rw [htd]; simp, hd⟩
  · show 't' :: (S "itle: " ++ t) ≠ []
    exact List.cons_ne_nil _ _
  · intro hmem
    rcases List.mem_append.mp hmem with h | h
    · exact absurd h (by decide)
    · exact htnl h

/-- The declaration line is stripped, nonempty and newline-free. -/
theorem flow_line_props (d : Direction) :
    pyStrip (S "flowchart " ++ d.val) = S "flowchart " ++ d.val
    ∧ S "flowchart " ++ d.val ≠ []
    ∧ ('\n' : Char) ∉ S "flowchart " ++ d.val := by
  cases d <;> exact ⟨by decide, by decide, by decide⟩

/-- Splitting a newline-joined document back into raw lines. -/
theorem processedLines_join (L : List Str) (hne : L ≠ [])
    (hnl : ∀ l ∈ L, ('\n' : Char) ∉ l) :
    processedLines (joinWith '\n' L)
      = (L.map pyStrip).filter (fun l => l ≠ []) := by
  unfold processedLines
  rw [splitOnChar_joinWith '\n' L hne hnl]

/-- `parse_string` recovers exactly a builder built from well-behaved
title, direction, nodes and connections (all other sections empty). -/
theorem parse_string_build (title : Option Str) (dir : Direction)
    (nodes : List (Str × FlowchartNode)) (conns : List FlowchartConnection)
    (htitle : ∀ t, title = some t → t ≠ [] ∧ pyStrip t = t ∧ ('\n' : Char) ∉ t)
    (hnodes : ∀ p ∈ nodes, p.1 = p.2.node_id
      ∧ matchesIdPattern p.2.node_id = true ∧ nodeOk p.2 = true)
    (hnd : (nodes.map Prod.fst).Nodup)
    (hconns : ∀ c ∈ conns, connOk c = true) :
    FlowchartParser.parse_string
        (FlowchartBuilder.build ⟨title, dir, nodes, conns, [], [], [], [], []⟩)
      = .ok ⟨title, dir, nodes, conns, [], [], [], [], []⟩ := by
  have hlines : FlowchartBuilder.build ⟨title, dir, nodes, conns, [], [], [], [], []⟩
      = joinWith '\n'
        ((if strTruthy title then
            [S "---", S "title: " ++ title.getD [], S "---"] else [])
          ++ (S "flowchart " ++ dir.val)
            :: (nodes.map (fun p => S "    " ++ p.2.to_mermaid)
              ++ conns.map (fun c => S "    " ++ c.to_mermaid))) := by
    unfold FlowchartBuilder.build
    simp [List.append_assoc]
  have hdash : pyStrip (S "---") = S "---" := by decide
  have hmapN : nodes.map (pyStrip ∘ fun p => S "    " ++ p.2.to_mermaid)
      = nodes.map (fun p => p.2.to_mermaid) :=
    List.map_congr_left (fun p hp => by
      show pyStrip (S "    " ++ p.2.to_mermaid) = p.2.to_mermaid
      rw [pyStrip_indent,
        (node_line_props p.2 (hnodes p hp).2.1 (hnodes p hp).2.2).1])
  have hmapC : conns.map (pyStrip ∘ fun c => S "    " ++ c.to_mermaid)
      = conns.map FlowchartConnection.to_mermaid :=
    List.map_congr_left (fun c hcm => by
      show pyStrip (S "    " ++ c.to_mermaid) = c.to_mermaid
      rw [pyStrip_indent, (conn_line_props c (hconns c hcm)).1])
  have hnlNC : ∀ l ∈ (S "flowchart " ++ dir.val)
      :: (nodes.map (fun p => S "    " ++ p.2.to_mermaid)
        ++ conns.map (fun c => S "    " ++ c.to_mermaid)),
      ('\n' : Char) ∉ l := by
    intro l hl
    rcases List.mem_cons.mp hl with rfl | h'
    · exact (flow_line_props dir).2.2
    · rcases List.mem_append.mp h' with h'' | h''
      · obtain ⟨p, hp, rfl⟩ := List.mem_map.mp h''
        intro hmem
        rcases List.mem_append.mp hmem with h4 | h4
        · exact absurd h4 (by decide)
        · exact (node_line_props p.2 (hnodes p hp).2.1 (hnodes p hp).2.2).2.2 h4
      · obtain ⟨c, hcm, rfl⟩ := List.mem_map.mp h''
        intro hmem
        rcases List.mem_append.mp hmem with h4 | h4
        · exact absurd h4 (by decide)
        · exact (conn_line_props c (hconns c hcm)).2.2 h4
  have hneNC : ∀ l ∈ (S "flowchart " ++ dir.val)
      :: (nodes.map (fun p => p.2.to_mermaid)
        ++ conns.map FlowchartConnection.to_mermaid),
      decide (l ≠ []) = true := by
    intro l hl
    rw [decide_eq_true_eq]
    rcases List.mem_cons.mp hl with rfl | h'
    · exact (flow_line_props dir).2.1
    · rcases List.mem_append.mp h' with h'' | h''
      · obtain ⟨p, hp, rfl⟩ := List.mem_map.mp h''
        exact (node_line_props p.2 (hnodes p hp).2.1 (hnodes p hp).2.2).2.1
      · obtain ⟨c, hcm, rfl⟩ := List.mem_map.mp h''
        exact (conn_line_props c (hconns c hcm)).2.1
  cases title with
  | none =>
    have hproc : processedLines
        (FlowchartBuilder.build ⟨none, dir, nodes, conns, [], [], [], [], []⟩)
        = (S "flowchart " ++ dir.val)
          :: (nodes.map (fun p => p.2.to_mermaid)
            ++ conns.map FlowchartConnection.to_mermaid) := by
      rw [hlines]
      rw [show (if strTruthy (none : Option Str) then
          [S "---", S "title: " ++ (none : Option Str).getD [], S "---"]
          else ([] : List Str)) = [] from rfl, List.nil_append]
      rw [processedLines_join _ (by simp) hnlNC]
      rw [List.map_cons, List.map_append, List.map_map, List.map_map,
        (flow_line_props dir).1, hmapN, hmapC]
      exact List.filter_eq_self.mpr hneNC
    unfold FlowchartParser.parse_string
    rw [hproc, parseLines_flowdir dir _ _,
      parseLines_nodes nodes _ _ hnodes
        (by simpa [FlowchartBuilder.set_direction] using hnd)]
    rw [show conns.map FlowchartConnection.to_mermaid
        = conns.map FlowchartConnection.to_mermaid ++ ([] : List Str) from
      (List.append_nil _).symm]
    rw [parseLines_conns conns [] _ hconns]
    rfl
  | some t =>
    obtain ⟨htne, hts, htnl⟩ := htitle t rfl
    have httl := title_line_props t hts htne htnl
    have hTr : strTruthy (some t) = true := by
      simp [strTruthy, htne]
    have hproc : processedLines
        (FlowchartBuilder.build ⟨some t, dir, nodes, conns, [], [], [], [], []⟩)
        = S "---" :: (S "title: " ++ t) :: S "---"
          :: ((S "flowchart " ++ dir.val)
            :: (nodes.map (fun p => p.2.to_mermaid)
              ++ conns.map FlowchartConnection.to_mermaid)) := by
      have hnlAll : ∀ l ∈ ([S "---", S "title: " ++ t, S "---"]
          ++ (S "flowchart " ++ dir.val)
            :: (nodes.map (fun p => S "    " ++ p.2.to_mermaid)
              ++ conns.map (fun c => S "    " ++ c.to_mermaid))),
          ('\n' : Char) ∉ l := by
        intro l hl
        rcases List.mem_append.mp hl with h | h
        · rcases List.mem_cons.mp h with rfl | h'
          · decide
          · rcases List.mem_cons.mp h' with rfl | h''
            · exact httl.2.2
            · rcases List.mem_cons.mp h'' with rfl | h3
              · decide
              · simp at h3
        · exact hnlNC l h
      have hneAll : ∀ l ∈ ([S "---", S "title: " ++ t, S "---"]
          ++ (S "flowchart " ++ dir.val)
            :: (nodes.map (fun p => p.2.to_mermaid)
              ++ conns.map FlowchartConnection.to_mermaid)),
          decide (l ≠ []) = true := by
        intro l hl
        rcases List.mem_append.mp hl with h | h
        · rw [decide_eq_true_eq]
          rcases List.mem_cons.mp h with rfl | h'
          · decide
          · rcases List.mem_cons.mp h' with rfl | h''
            · exact httl.2.1
            · rcases List.mem_cons.mp h'' with rfl | h3
              · decide
              · simp at h3
        · exact hneNC l h
      rw [hlines]
      rw [show (if strTruthy (some t) then
          [S "---", S "title: " ++ (some t).getD [], S "---"]
          else ([] : List Str)) = [S "---", S "title: " ++ t, S "---"] from by
        rw [if_pos hTr]
        rfl]
      rw [processedLines_join _ (by simp) hnlAll]
      simp only [List.map_append, List.map_cons, List.map_nil, List.map_map]
      rw [httl.1, hdash, (flow_line_props dir).1, hmapN, hmapC]
      rw [List.filter_eq_self.mpr hneAll]
      rfl
    unfold FlowchartParser.parse_string
    rw [hproc, parseLines_title t _ {}, hts, parseLines_flowdir dir _ _,
      parseLines_nodes nodes _ _ hnodes
        (by simpa [FlowchartBuilder.set_direction] using hnd)]
    rw [show conns.map FlowchartConnection.to_mermaid
        = conns.map FlowchartConnection.to_mermaid ++ ([] : List Str) from
      (List.append_nil _).symm]
    rw [parseLines_conns conns [] _ hconns]
    rfl

/-- C1 (amended): the parse/serialize round trip
`serialize(parse(serialize(b))) = serialize(b)` holds for builders in
the rectangle/round/rhombus + seven-arrow subset, provided additionally
that node labels avoid their shape's closing delimiter, newlines and
arrow tokens, node ids match the identifier pattern and are the map
keys (no duplicates), endpoints and labels of connections are stripped,
nonempty and free of pipes, newlines and arrow tokens, the title is
stripped, nonempty and newline-free, and no subgraphs, styles,
classDefs, clicks or hrefs are present.  (Without the extra label/id
conditions the claim fails: see the counterexample.) -/
theorem c1_roundtrip_amended (b : FlowchartBuilder)
    (hsub : b.subgraphs = []) (hsty : b.styles = [])
    (hcss : b.css_classes = []) (hclick : b.click_actions = [])
    (hhref : b.href_links = [])
    (htitle : ∀ t, b.title = some t → t ≠ [] ∧ pyStrip t = t ∧ ('\n' : Char) ∉ t)
    (hnodes : ∀ p ∈ b.nodes, p.1 = p.2.node_id
      ∧ matchesIdPattern p.2.node_id = true ∧ nodeOk p.2 = true)
    (hnd : (b.nodes.map Prod.fst).Nodup)
    (hconns : ∀ c ∈ b.connections, connOk c = true) :
    parseBuild b.build = some b.build := by
  obtain ⟨title, dir, nodes, conns, subs, stys, csss, clicks, hrefs⟩ := b
  simp only at hsub hsty hcss hclick hhref htitle hnodes hnd hconns ⊢
  subst hsub hsty hcss hclick hhref
  unfold parseBuild
  rw [parse_string_build title dir nodes conns htitle hnodes hnd hconns]
  rfl

/-- C1 witness: a concrete two-node, one-labeled-connection builder
with title and direction for which the round trip is exact. -/
theorem c1_roundtrip_amended_witness :
    rtWitnessBuilder2.subgraphs = []
    ∧ (rtWitnessBuilder2.nodes.map Prod.fst).Nodup
    ∧ parseBuild rtWitnessBuilder2.build = some rtWitnessBuilder2.build :=
  ⟨rfl, by decide,
    c1_roundtrip_amended rtWitnessBuilder2 rfl rfl rfl rfl rfl
      (fun t ht => by
        have h2 : some (S "My Flow") = some t := ht
        injection h2 with h
        subst h
        exact ⟨by decide, by decide, by decide⟩)
      (by decide) (by decide) (by decide)⟩

/-- One step of the flowchart validation loop never touches the error
list. -/
theorem vfsLine_errors (n : Nat) (l : Str) (acc : Bool × VState) :
    (vfsLine n l acc).2.errors = acc.2.errors := by
  obtain ⟨hasDecl, st⟩ := acc
  simp only [vfsLine]
  split_ifs <;> rfl

/-- The flowchart validation loop never touches the error list. -/
theorem vfsGo_errors (ls : List Str) :
    ∀ (n : Nat) (acc : Bool × VState), (vfsGo n ls acc).2.errors = acc.2.errors := by
  induction ls with
  | nil => intro n acc; rfl
  | cons l rest ih =>
    intro n acc
    rw [vfsGo, ih, vfsLine_errors]

/-- One step of the flowchart validation loop only appends warnings. -/
theorem vfsLine_warnings_mono (n : Nat) (l : Str) (acc : Bool × VState)
    (m : VMsg) (h : m ∈ acc.2.warnings) : m ∈ (vfsLine n l acc).2.warnings := by
  obtain ⟨hasDecl, st⟩ := acc
  simp only [vfsLine]
  split_ifs <;> simp_all [List.mem_append]

/-- The flowchart validation loop only appends warnings. -/
theorem vfsGo_warnings_mono (ls : List Str) :
    ∀ (n : Nat) (acc : Bool × VState) (m : VMsg), m ∈ acc.2.warnings →
      m ∈ (vfsGo n ls acc).2.warnings := by
  induction ls with
  | nil => intro n acc m h; exact h
  | cons l rest ih =>
    intro n acc m h
    rw [vfsGo]
    exact ih (n + 1) _ m (vfsLine_warnings_mono n l acc m h)

/-- A line that carries neither declaration keyword leaves the
declaration flag unchanged. -/
theorem vfsLine_hasDecl (n : Nat) (l : Str) (acc : Bool × VState)
    (hf : ¬ ((S "flowchart ") <+: l)) (hg : ¬ ((S "graph ") <+: l)) :
    (vfsLine n l acc).1 = acc.1 := by
  obtain ⟨hasDecl, st⟩ := acc
  simp only [vfsLine]
  have hor : ((S "flowchart ").isPrefixOf l || (S "graph ").isPrefixOf l) = false := by
    rw [Bool.or_eq_false_iff, Bool.eq_false_iff, Bool.eq_false_iff]
    constructor
    · intro hp; exact hf (List.isPrefixOf_iff_prefix.mp hp)
    · intro hp; exact hg (List.isPrefixOf_iff_prefix.mp hp)
  split_ifs <;> simp_all

/-- Without any declaration line, the loop's declaration flag stays
false. -/
theorem vfsGo_hasDecl_false (ls : List Str) :
    ∀ (n : Nat) (acc : Bool × VState),
      (∀ l ∈ ls, ¬ ((S "flowchart ") <+: l) ∧ ¬ ((S "graph ") <+: l)) →
      acc.1 = false → (vfsGo n ls acc).1 = false := by
  induction ls with
  | nil => intro n acc _ h; exact h
  | cons l rest ih =>
    intro n acc hdecl h
    rw [vfsGo]
    refine ih (n + 1) _ (fun l' hl' => hdecl l' (List.mem_cons_of_mem l hl')) ?_
    rw [vfsLine_hasDecl n l acc (hdecl l (List.mem_cons_self l rest)).1
      (hdecl l (List.mem_cons_self l rest)).2]
    exact h

/-- C3 amended: a document with `-->`/`---` content but no
flowchart/graph declaration is classified as a flowchart with the
sniffing warning — but flowchart validation then records the
missing-declaration error, so `validate_mermaid_syntax` returns false,
not true. -/
theorem c3_sniffed_flowchart_amended (code : Str)
    (hdetect : detectDType (pyLower ((processedLines code).headD [])) = none)
    (hpie : containsSeq (S "pie title")
        (pyLower (joinWith ' ' (processedLines code))) = false)
    (harrow : (containsSeq (S "-->") (pyLower (joinWith ' ' (processedLines code)))
        || containsSeq (S "---")
            (pyLower (joinWith ' ' (processedLines code)))) = true)
    (hdecl : ∀ l ∈ processedLines code,
        ¬ ((S "flowchart ") <+: l) ∧ ¬ ((S "graph ") <+: l)) :
    (FlowchartValidator.validate_mermaid_syntax code).2 = false
    ∧ VMsg.detectedConnectionsMissingDecl
        ∈ (FlowchartValidator.validate_mermaid_syntax code).1.warnings
    ∧ VMsg.missingFlowchartDecl
        ∈ (FlowchartValidator.validate_mermaid_syntax code).1.errors := by
  have hne : (processedLines code).isEmpty = false := by
    rcases h : processedLines code with _ | _
    · rw [h] at harrow
      exact absurd harrow (by decide)
    · rfl
  simp only [FlowchartValidator.validate_mermaid_syntax, hne, hdetect, hpie, harrow,
    Bool.false_eq_true, if_false, if_true]
  unfold FlowchartValidator.validateFlowchartSyntax
  rcases hgo : vfsGo 1 (processedLines code)
      (false, { warnings := [VMsg.detectedConnectionsMissingDecl] }) with ⟨hasDecl, st'⟩
  have hdeclF : hasDecl = false := by
    have := vfsGo_hasDecl_false (processedLines code) 1
      (false, { warnings := [VMsg.detectedConnectionsMissingDecl] }) hdecl rfl
    rw [hgo] at this
    exact this
  have herr : st'.errors = [] := by
    have := vfsGo_errors (processedLines code) 1
      (false, { warnings := [VMsg.detectedConnectionsMissingDecl] })
    rw [hgo] at this
    exact this
  have hwarn : VMsg.detectedConnectionsMissingDecl ∈ st'.warnings := by
    have := vfsGo_warnings_mono (processedLines code) 1
      (false, { warnings := [VMsg.detectedConnectionsMissingDecl] })
      VMsg.detectedConnectionsMissingDecl (by simp)
    rw [hgo] at this
    exact this
  rw [hdeclF]
  simp [herr, hwarn]

/-- C3 amended witness: the single-line document `A --> B`. -/
theorem c3_sniffed_flowchart_amended_witness :
    (FlowchartValidator.validate_mermaid_syntax (S "A --> B")).2 = false
    ∧ VMsg.detectedConnectionsMissingDecl
        ∈ (FlowchartValidator.validate_mermaid_syntax (S "A --> B")).1.warnings
    ∧ VMsg.missingFlowchartDecl
        ∈ (FlowchartValidator.validate_mermaid_syntax (S "A --> B")).1.errors :=
  c3_sniffed_flowchart_amended (S "A --> B")
    (by decide) (by decide) (by decide) (by decide)

/-- C8: with a nonempty node map, `validate_builder` returns true iff
its error list is empty (warnings never affect the result); the
no-clear-start warning appears exactly when the set of connection
sources minus the set of targets is empty, and the no-clear-end
warning exactly when targets minus sources is empty. -/
theorem c8_validate_builder (b : FlowchartBuilder) (hne : b.nodes ≠ []) :
    ((FlowchartValidator.validate_builder b).2 = true
      ↔ (FlowchartValidator.validate_builder b).1.errors = [])
    ∧ (VMsg.noStartNode ∈ (FlowchartValidator.validate_builder b).1.warnings
      ↔ (b.connections.map FlowchartConnection.from_node).toFinset \
          (b.connections.map FlowchartConnection.to_node).toFinset = ∅)
    ∧ (VMsg.noEndNode ∈ (FlowchartValidator.validate_builder b).1.warnings
      ↔ (b.connections.map FlowchartConnection.to_node).toFinset \
          (b.connections.map FlowchartConnection.from_node).toFinset = ∅) := by
  have hne' : b.nodes.isEmpty = false := by
    cases h : b.nodes <;> simp_all
  have hstart :
      (b.connections.all
        (fun c => b.connections.any (fun c' => c'.to_node == c.from_node)) = true)
      ↔ ((b.connections.map FlowchartConnection.from_node).toFinset \
          (b.connections.map FlowchartConnection.to_node).toFinset = ∅) := by
    rw [Finset.sdiff_eq_empty_iff_subset]
    simp only [List.all_eq_true, List.any_eq_true, beq_iff_eq, Finset.subset_iff,
      List.mem_toFinset, List.mem_map]
    constructor
    · rintro h x ⟨c, hc, rfl⟩
      rcases h c hc with ⟨c', hc', he⟩
      exact ⟨c', hc', he⟩
    · intro h c hc
      rcases h ⟨c, hc, rfl⟩ with ⟨c', hc', he⟩
      exact ⟨c', hc', he⟩
  have hend :
      (b.connections.all
        (fun c => b.connections.any (fun c' => c'.from_node == c.to_node)) = true)
      ↔ ((b.connections.map FlowchartConnection.to_node).toFinset \
          (b.connections.map FlowchartConnection.from_node).toFinset = ∅) := by
    rw [Finset.sdiff_eq_empty_iff_subset]
    simp only [List.all_eq_true, List.any_eq_true, beq_iff_eq, Finset.subset_iff,
      List.mem_toFinset, List.mem_map]
    constructor
    · rintro h x ⟨c, hc, rfl⟩
      rcases h c hc with ⟨c', hc', he⟩
      exact ⟨c', hc', he⟩
    · intro h c hc
      rcases h ⟨c, hc, rfl⟩ with ⟨c', hc', he⟩
      exact ⟨c', hc', he⟩
  simp only [FlowchartValidator.validate_builder, hne', Bool.false_eq_true, if_false]
  refine ⟨List.isEmpty_iff, ?_, ?_⟩
  · rw [← hstart]
    constructor
    · intro hmem
      by_contra h2
      rw [if_neg h2] at hmem
      revert hmem
      split <;> (try split) <;> simp
    · intro h2
      rw [if_pos h2]
      first
        | exact List.mem_append_right _ (List.mem_append_left _ (List.mem_singleton_self _))
        | exact List.mem_append_left _ (List.mem_append_right _ (List.mem_singleton_self _))
  · rw [← hend]
    constructor
    · intro hmem
      by_contra h3
      rw [if_neg h3] at hmem
      revert hmem
      split <;> (try split) <;> simp
    · intro h3
      rw [if_pos h3]
      first
        | exact List.mem_append_right _ (List.mem_append_right _ (List.mem_singleton_self _))
        | exact List.mem_append_right _ (List.mem_singleton_self _)

/-- C8 witness: the two-node, one-connection builder instantiates the
`validate_builder` characterization. -/
theorem c8_validate_builder_witness :
    ((FlowchartValidator.validate_builder vbWitnessBuilder).2 = true
      ↔ (FlowchartValidator.validate_builder vbWitnessBuilder).1.errors = [])
    ∧ (VMsg.noStartNode
        ∈ (FlowchartValidator.validate_builder vbWitnessBuilder).1.warnings
      ↔ (vbWitnessBuilder.connections.map FlowchartConnection.from_node).toFinset \
          (vbWitnessBuilder.connections.map FlowchartConnection.to_node).toFinset = ∅)
    ∧ (VMsg.noEndNode
        ∈ (FlowchartValidator.validate_builder vbWitnessBuilder).1.warnings
      ↔ (vbWitnessBuilder.connections.map FlowchartConnection.to_node).toFinset \
          (vbWitnessBuilder.connections.map FlowchartConnection.from_node).toFinset = ∅) :=
  c8_validate_builder vbWitnessBuilder (by decide)

/-- C4: the claim describes `classDiagram` documents as accepted with
only an advisory warning, but the detection lowercases the first line
and then tests the mixed-case literal `classDiagram`, which can never
match: on the input `classDiagram` the validator fails with the
could-not-determine-type error and returns false. -/
theorem c4_classdiagram_misclassified :
    (FlowchartValidator.validate_mermaid_syntax (S "classDiagram")).2 = false
    ∧ (FlowchartValidator.validate_mermaid_syntax (S "classDiagram")).1.errors
        = [VMsg.couldNotDetermineType]
    ∧ (FlowchartValidator.validate_mermaid_syntax (S "classDiagram")).1.warnings
        = [] := by
  decide

end PyMermaid
